import Mathlib

/-!
Verification development for a video-conference signaling backend.

The code under verification consists of two in-memory stores:
* `RoomManager` (src/services/RoomManager.js) with the `Room` entity
  (src/models/Room.js): room/participant lifecycle;
* `WebRTCManager` (src/services/WebRTCManager.js): per-peer-pair signaling
  state (peer links, pending offers).

JavaScript `Map` objects are embedded as association lists
`List (String × α)` in insertion order: `set` updates the first occurrence
in place (keeping its position) or appends, `get` returns the first match,
`delete` removes the key's entry (a `Map` holds each key at most once, so
filtering every occurrence of the key is extensionally the deletion of its
single entry), and iteration order is list order.  Timestamps (`new Date()`)
are threaded explicitly as `Nat` milliseconds.
-/

namespace VC

/-- JS `Map.get`. -/
def assocGet {α : Type} (k : String) : List (String × α) → Option α
  | [] => none
  | (k₁, v) :: rest => if k₁ = k then some v else assocGet k rest

/-- JS `Map.has`. -/
def assocHas {α : Type} (k : String) (l : List (String × α)) : Bool :=
  (assocGet k l).isSome

/-- JS `Map.set`: update in place if the key is present, else append. -/
def assocSet {α : Type} (k : String) (v : α) : List (String × α) → List (String × α)
  | [] => [(k, v)]
  | (k₁, v₁) :: rest =>
      if k₁ = k then (k₁, v) :: rest else (k₁, v₁) :: assocSet k v rest

/-- JS `Map.delete` (a `Map` has each key at most once). -/
def assocDelete {α : Type} (k : String) (l : List (String × α)) : List (String × α) :=
  l.filter (fun p => p.1 ≠ k)

/- ## Room model (src/models/Room.js) -/

/-- `this.settings` initialised in the `Room` constructor. -/
structure RoomSettings where
  allowScreenShare : Bool
  allowChat : Bool
  requirePassword : Bool
  password : Option String
  recordingEnabled : Bool
deriving DecidableEq

/-- A participant record as built by `Room.addUser`. -/
structure RoomUser where
  userId : String
  name : String
  socketId : String
  joinedAt : Nat
  isAudioEnabled : Bool
  isVideoEnabled : Bool
  isScreenSharing : Bool
  role : String
deriving DecidableEq

/-- The `userInfo` argument of `Room.addUser` (only the fields it reads). -/
structure UserInfo where
  name : Option String
  socketId : String
deriving DecidableEq

structure Room where
  roomId : String
  users : List (String × RoomUser)
  createdAt : Nat
  createdBy : Option String
  isActive : Bool
  maxUsers : Nat
  settings : RoomSettings
deriving DecidableEq

/-- Errors thrown by `Room.addUser` / `RoomManager.joinRoom`. -/
inductive RoomError where
  | RoomNotFound
  | RoomInactive
  | InvalidPassword
  | RoomFull
  | DuplicateParticipant
deriving DecidableEq

/-- The `Room` constructor (settings applied later by `createRoom`). -/
def Room.new (roomId : String) (createdBy : Option String) (now : Nat) : Room :=
  { roomId
    users := []
    createdAt := now
    createdBy
    isActive := true
    maxUsers := 10
    settings :=
      { allowScreenShare := true
        allowChat := true
        requirePassword := false
        password := none
        recordingEnabled := false } }

/-- `Room.addUser`: capacity check, duplicate check, first user becomes host.
`userInfo.name || defaultName` treats the empty string as absent. -/
def Room.addUser (room : Room) (userId : String) (info : UserInfo) (now : Nat) :
    Except RoomError (Room × RoomUser) :=
  if room.maxUsers ≤ room.users.length then .error .RoomFull
  else if assocHas userId room.users then .error .DuplicateParticipant
  else
    let user : RoomUser :=
      { userId
        name :=
          match info.name with
          | some n => if n = "" then "User " ++ userId.take 8 else n
          | none => "User " ++ userId.take 8
        socketId := info.socketId
        joinedAt := now
        isAudioEnabled := true
        isVideoEnabled := true
        isScreenSharing := false
        role := if room.users.length = 0 then "host" else "participant" }
    .ok ({ room with users := assocSet userId user room.users }, user)

/-- `newHost.role = 'host'` applied to `users.values().next().value`,
i.e. the earliest remaining entry in insertion order. -/
def setHeadHost : List (String × RoomUser) → List (String × RoomUser)
  | [] => []
  | (k, u) :: rest => (k, { u with role := "host" }) :: rest

/-- `Room.removeUser`: delete the entry; if the departing user was host and
others remain, promote the earliest remaining entry. -/
def Room.removeUser (room : Room) (userId : String) : Room × Option RoomUser :=
  match assocGet userId room.users with
  | none => (room, none)
  | some user =>
    let users₁ := assocDelete userId room.users
    let users₂ :=
      if user.role = "host" ∧ users₁.length ≠ 0 then setHeadHost users₁ else users₁
    ({ room with users := users₂ }, some user)

/-- `Room.isEmpty`. -/
def Room.isEmpty (room : Room) : Bool :=
  room.users.length = 0

/-- `Room.validatePassword` (`===` comparison against the stored password). -/
def Room.validatePassword (room : Room) (password : Option String) : Bool :=
  if ¬room.settings.requirePassword then true
  else room.settings.password == password

/- ## RoomManager (src/services/RoomManager.js) -/

/-- The `settings` argument of `createRoom` (only the fields it reads).
`maxUsers = some 0` models passing the number `0`, which is falsy in JS. -/
structure CreateSettings where
  maxUsers : Option Nat
  requirePassword : Bool
  password : Option String
deriving DecidableEq

/-- `RoomManager` state.  `nextRoomId` stands in for the `uuidv4()` fresh-id
generator: each created room gets a distinct identifier. -/
structure RoomManager where
  rooms : List (String × Room)
  userRoomMap : List (String × String)
  nextRoomId : Nat
deriving DecidableEq

def rmInit : RoomManager :=
  { rooms := [], userRoomMap := [], nextRoomId := 0 }

/-- `RoomManager.createRoom`: fresh id, apply settings
(`if (settings.maxUsers) room.maxUsers = Math.min(settings.maxUsers, 50)`,
so a requested capacity of `0` is falsy and leaves the default `10`),
store the room.  Always succeeds. -/
def RoomManager.createRoom (s : RoomManager) (createdBy : Option String)
    (settings : CreateSettings) (now : Nat) : RoomManager × Room :=
  let roomId := toString s.nextRoomId
  let room₀ := Room.new roomId createdBy now
  let room₁ :=
    match settings.maxUsers with
    | some m => if m = 0 then room₀ else { room₀ with maxUsers := min m 50 }
    | none => room₀
  let room₂ :=
    if settings.requirePassword then
      { room₁ with settings :=
          { room₁.settings with requirePassword := true, password := settings.password } }
    else room₁
  ({ s with rooms := assocSet roomId room₂ s.rooms, nextRoomId := s.nextRoomId + 1 },
   room₂)

/-- `RoomManager.getRoom`. -/
def RoomManager.getRoom (s : RoomManager) (roomId : String) : Option Room :=
  assocGet roomId s.rooms

/-- `RoomManager.leaveRoom`: look up the user's room via `userRoomMap`,
remove the user from it (the room object is mutated in place, hence the
`assocSet` write-back), drop the map entry, and delete the room from the
directory once empty.  Returns the `{ room, user }` pair the code returns. -/
def RoomManager.leaveRoom (s : RoomManager) (userId : String) :
    RoomManager × Option (Room × Option RoomUser) :=
  match assocGet userId s.userRoomMap with
  | none => (s, none)
  | some roomId =>
    match assocGet roomId s.rooms with
    | none => (s, none)
    | some room =>
      let room₁ := (room.removeUser userId).1
      let user := (room.removeUser userId).2
      let map₁ := assocDelete userId s.userRoomMap
      let rooms₁ := assocSet roomId room₁ s.rooms
      let rooms₂ := if room₁.isEmpty then assocDelete roomId rooms₁ else rooms₁
      ({ s with rooms := rooms₂, userRoomMap := map₁ }, some (room₁, user))

/-- `RoomManager.joinRoom`: validate room / active flag / password against the
room object captured **before** the preliminary `leaveRoom(userId)`, then add
the user to that same object.  In JS the captured reference aliases the map
entry, so if the map still holds the room id the mutation is visible in the
directory (`assocSet` write-back); if the preliminary leave deleted the room
(the user was its sole member), the captured object — with the user already
removed — is mutated while the directory no longer references it. -/
def RoomManager.joinRoom (s : RoomManager) (roomId userId : String)
    (info : UserInfo) (password : Option String) (now : Nat) :
    RoomManager × Except RoomError (Room × RoomUser) :=
  match assocGet roomId s.rooms with
  | none => (s, .error .RoomNotFound)
  | some room₀ =>
    if ¬room₀.isActive then (s, .error .RoomInactive)
    else if ¬room₀.validatePassword password then (s, .error .InvalidPassword)
    else
      let s₁ := (s.leaveRoom userId).1
      let roomCur :=
        match assocGet roomId s₁.rooms with
        | some r => r
        | none => (room₀.removeUser userId).1
      match roomCur.addUser userId info now with
      | .error e => (s₁, .error e)
      | .ok ru =>
        let rooms₂ :=
          if assocHas roomId s₁.rooms then assocSet roomId ru.1 s₁.rooms
          else s₁.rooms
        ({ s₁ with rooms := rooms₂, userRoomMap := assocSet userId roomId s₁.userRoomMap },
         .ok ru)

/-- Operations a client can drive on the `RoomManager` singleton. -/
inductive RMOp where
  | create (createdBy : Option String) (settings : CreateSettings) (now : Nat)
  | join (roomId userId : String) (info : UserInfo) (password : Option String) (now : Nat)
  | leave (userId : String)
deriving DecidableEq

def RMOp.step (s : RoomManager) : RMOp → RoomManager
  | .create createdBy settings now => (s.createRoom createdBy settings now).1
  | .join roomId userId info password now => (s.joinRoom roomId userId info password now).1
  | .leave userId => (s.leaveRoom userId).1

/-- The state reached from the empty manager after a trace of operations. -/
def runRM (tr : List RMOp) : RoomManager :=
  tr.foldl RMOp.step rmInit

/-- Number of participants of a room holding role `host`. -/
def countHost (l : List (String × RoomUser)) : Nat :=
  (l.filter (fun p => p.2.role = "host")).length

/- ## WebRTCManager (src/services/WebRTCManager.js) -/

structure MediaState where
  audio : Bool
  video : Bool
  screen : Bool
deriving DecidableEq

/-- One directed peer link, stored under the initiator's entry by
`createPeerConnection`. -/
structure PeerLink where
  connectionId : String
  peerId : String
  status : String
  createdAt : Nat
deriving DecidableEq

/-- Per-user record created by `WebRTCManager.addUser`. -/
structure PeerEntry where
  socketId : String
  peers : List (String × PeerLink)
  isInitiator : Bool
  mediaState : MediaState
deriving DecidableEq

/-- Offer staged by `handleOffer`, keyed by connection id. -/
structure PendingOffer where
  roomId : String
  fromUserId : String
  toUserId : String
  offer : String
  timestamp : Nat
deriving DecidableEq

structure WebRTCManager where
  connections : List (String × List (String × PeerEntry))
  pendingOffers : List (String × PendingOffer)
deriving DecidableEq

def wInit : WebRTCManager :=
  { connections := [], pendingOffers := [] }

/-- `WebRTCManager.initializeRoom`: lazily create the room's user map. -/
def WebRTCManager.initRoom (s : WebRTCManager) (roomId : String) : WebRTCManager :=
  if assocHas roomId s.connections then s
  else { s with connections := assocSet roomId [] s.connections }

/-- `WebRTCManager.addUser`: idempotent; a fresh entry has no peers and media
state `{audio: true, video: true, screen: false}`. -/
def WebRTCManager.addUser (s : WebRTCManager) (roomId userId socketId : String) :
    WebRTCManager :=
  let s₁ := s.initRoom roomId
  match assocGet roomId s₁.connections with
  | none => s₁
  | some roomConnections =>
    if assocHas userId roomConnections then s₁
    else
      let entry : PeerEntry :=
        { socketId
          peers := []
          isInitiator := false
          mediaState := { audio := true, video := true, screen := false } }
      { s₁ with connections := assocSet roomId (assocSet userId entry roomConnections) s₁.connections }

/-- `WebRTCManager.removeUser`: discard the user's entry and the room bucket
once empty; returns whether anything was removed. -/
def WebRTCManager.removeUser (s : WebRTCManager) (roomId userId : String) :
    WebRTCManager × Bool :=
  match assocGet roomId s.connections with
  | none => (s, false)
  | some roomConnections =>
    if assocHas userId roomConnections then
      let roomConnections₁ := assocDelete userId roomConnections
      if roomConnections₁.length = 0 then
        ({ s with connections := assocDelete roomId s.connections }, true)
      else
        ({ s with connections := assocSet roomId roomConnections₁ s.connections }, true)
    else (s, false)

/-- `WebRTCManager.createPeerConnection`: requires both users tracked; stores
a `connecting` link keyed by the target under the **initiator's** entry. -/
def WebRTCManager.createPeerConnection (s : WebRTCManager)
    (roomId fromUserId toUserId : String) (now : Nat) :
    WebRTCManager × Option String :=
  match assocGet roomId s.connections with
  | none => (s, none)
  | some roomConnections =>
    match assocGet fromUserId roomConnections, assocGet toUserId roomConnections with
    | some fromUser, some _ =>
      let connectionId := fromUserId ++ "-" ++ toUserId
      let link : PeerLink :=
        { connectionId, peerId := toUserId, status := "connecting", createdAt := now }
      let fromUser₁ := { fromUser with peers := assocSet toUserId link fromUser.peers }
      ({ s with connections :=
          assocSet roomId (assocSet fromUserId fromUser₁ roomConnections) s.connections },
       some connectionId)
    | _, _ => (s, none)

/-- `WebRTCManager.handleOffer`: create the peer link, then stage the offer
under the returned connection id. -/
def WebRTCManager.handleOffer (s : WebRTCManager)
    (roomId fromUserId toUserId offer : String) (now : Nat) :
    WebRTCManager × Option String :=
  let s₁ := (s.createPeerConnection roomId fromUserId toUserId now).1
  match (s.createPeerConnection roomId fromUserId toUserId now).2 with
  | some cid =>
    let pending : PendingOffer := { roomId, fromUserId, toUserId, offer, timestamp := now }
    ({ s₁ with pendingOffers := assocSet cid pending s₁.pendingOffers }, some cid)
  | none => (s₁, none)

/-- `WebRTCManager.handleAnswer`: the code computes the reversed connection id
but then consults the **answerer's own** peer map (`fromUser.peers`), setting
the matching link's status to `connected` when present. -/
def WebRTCManager.handleAnswer (s : WebRTCManager)
    (roomId fromUserId toUserId answer : String) : WebRTCManager × Bool :=
  let _connectionId := toUserId ++ "-" ++ fromUserId
  match assocGet roomId s.connections with
  | none => (s, false)
  | some roomConnections =>
    match assocGet fromUserId roomConnections with
    | none => (s, false)
    | some fromUser =>
      match assocGet toUserId fromUser.peers with
      | none => (s, false)
      | some link =>
        let fromUser₁ :=
          { fromUser with
            peers := assocSet toUserId { link with status := "connected" } fromUser.peers }
        ({ s with connections :=
            assocSet roomId (assocSet fromUserId fromUser₁ roomConnections) s.connections },
         true)

/-- `WebRTCManager.cleanupPendingOffers`: collect the connection ids whose
offer is older than 30000 ms (`now - timestamp > 30000`), delete each, and
return how many were removed. -/
def WebRTCManager.cleanupPendingOffers (s : WebRTCManager) (now : Nat) :
    WebRTCManager × Nat :=
  let expired :=
    (s.pendingOffers.filter (fun p => 30000 < now - p.2.timestamp)).map Prod.fst
  ({ s with pendingOffers := expired.foldl (fun m cid => assocDelete cid m) s.pendingOffers },
   expired.length)

/-- Aggregate counters returned by `WebRTCManager.getStats`. -/
structure WStats where
  totalRooms : Nat
  totalUsers : Nat
  totalConnections : Nat
  pendingOffers : Nat
  rooms : List (String × (Nat × Nat))
deriving DecidableEq

def WebRTCManager.getStats (s : WebRTCManager) : WStats :=
  { totalRooms := s.connections.length
    totalUsers := (s.connections.map (fun r => r.2.length)).sum
    totalConnections :=
      (s.connections.map (fun r => (r.2.map (fun u => u.2.peers.length)).sum)).sum
    pendingOffers := s.pendingOffers.length
    rooms :=
      s.connections.map (fun r =>
        (r.1, (r.2.length, (r.2.map (fun u => u.2.peers.length)).sum))) }

/-- Signaling operations a client can drive on the `WebRTCManager` singleton
(as invoked by the socket handler). -/
inductive WOp where
  | addUser (roomId userId socketId : String)
  | removeUser (roomId userId : String)
  | offer (roomId fromUserId toUserId payload : String) (now : Nat)
  | answer (roomId fromUserId toUserId payload : String)
  | cleanup (now : Nat)
deriving DecidableEq

def WOp.step (s : WebRTCManager) : WOp → WebRTCManager
  | .addUser roomId userId socketId => s.addUser roomId userId socketId
  | .removeUser roomId userId => (s.removeUser roomId userId).1
  | .offer roomId fromUserId toUserId payload now =>
      (s.handleOffer roomId fromUserId toUserId payload now).1
  | .answer roomId fromUserId toUserId payload =>
      (s.handleAnswer roomId fromUserId toUserId payload).1
  | .cleanup now => (s.cleanupPendingOffers now).1

/-- The tracker state reached from the empty tracker after a trace. -/
def runW (tr : List WOp) : WebRTCManager :=
  tr.foldl WOp.step wInit

/-- Does this operation record an offer from `fromUserId` to `toUserId` in
room `roomId`? -/
def WOp.isOfferFromTo (op : WOp) (roomId fromUserId toUserId : String) : Bool :=
  match op with
  | .offer r f t _ _ => r = roomId ∧ f = fromUserId ∧ t = toUserId
  | _ => false

/-- Status of the peer link stored under `fromUserId` toward `toUserId`. -/
def linkStatus (s : WebRTCManager) (roomId fromUserId toUserId : String) :
    Option String :=
  match assocGet roomId s.connections with
  | none => none
  | some roomConnections =>
    match assocGet fromUserId roomConnections with
    | none => none
    | some entry =>
      match assocGet toUserId entry.peers with
      | none => none
      | some link => some link.status

/- ## Association-list lemmas -/

theorem assocGet_set_self {α : Type} (k : String) (v : α) (l : List (String × α)) :
    assocGet k (assocSet k v l) = some v := by
  induction l with
  | nil => simp [assocGet, assocSet]
  | cons p rest ih =>
    obtain ⟨k₁, v₁⟩ := p
    by_cases h : k₁ = k
    · simp [assocGet, assocSet, h]
    · simp [assocGet, assocSet, h, ih]

theorem assocGet_set_ne {α : Type} (k k' : String) (v : α) (l : List (String × α))
    (h : k' ≠ k) : assocGet k' (assocSet k v l) = assocGet k' l := by
  induction l with
  | nil =>
    simp only [assocSet, assocGet]
    rw [if_neg (fun hh => h hh.symm)]
  | cons p rest ih =>
    obtain ⟨k₁, v₁⟩ := p
    simp only [assocSet]
    by_cases h₁ : k₁ = k
    · rw [if_pos h₁]
      simp only [assocGet]
      rw [if_neg (fun hh => h (h₁ ▸ hh).symm), if_neg (fun hh => h (h₁ ▸ hh).symm)]
    · rw [if_neg h₁]
      simp only [assocGet]
      by_cases h₂ : k₁ = k'
      · rw [if_pos h₂, if_pos h₂]
      · rw [if_neg h₂, if_neg h₂]
        exact ih

theorem assocDelete_cons {α : Type} (k k₁ : String) (v₁ : α) (rest : List (String × α)) :
    assocDelete k ((k₁, v₁) :: rest) =
      if k₁ = k then assocDelete k rest else (k₁, v₁) :: assocDelete k rest := by
  by_cases h : k₁ = k
  · simp [assocDelete, List.filter_cons, h]
  · simp [assocDelete, List.filter_cons, h]

theorem assocGet_delete_self {α : Type} (k : String) (l : List (String × α)) :
    assocGet k (assocDelete k l) = none := by
  induction l with
  | nil => simp [assocGet, assocDelete]
  | cons p rest ih =>
    obtain ⟨k₁, v₁⟩ := p
    rw [assocDelete_cons]
    by_cases h : k₁ = k
    · rw [if_pos h]
      exact ih
    · rw [if_neg h]
      simp only [assocGet]
      rw [if_neg h]
      exact ih

theorem assocGet_delete_ne {α : Type} (k k' : String) (l : List (String × α))
    (h : k' ≠ k) : assocGet k' (assocDelete k l) = assocGet k' l := by
  induction l with
  | nil => simp [assocGet, assocDelete]
  | cons p rest ih =>
    obtain ⟨k₁, v₁⟩ := p
    rw [assocDelete_cons]
    by_cases h₁ : k₁ = k
    · rw [if_pos h₁]
      simp only [assocGet]
      rw [if_neg (fun hh => h (h₁ ▸ hh).symm)]
      exact ih
    · rw [if_neg h₁]
      simp only [assocGet]
      by_cases h₂ : k₁ = k'
      · rw [if_pos h₂, if_pos h₂]
      · rw [if_neg h₂, if_neg h₂]
        exact ih

theorem assocHas_true_iff {α : Type} (k : String) (l : List (String × α)) :
    assocHas k l = true ↔ ∃ v, assocGet k l = some v := by
  simp [assocHas, Option.isSome_iff_exists]

theorem assocHas_false_iff {α : Type} (k : String) (l : List (String × α)) :
    assocHas k l = false ↔ assocGet k l = none := by
  unfold assocHas
  cases assocGet k l <;> simp

theorem assocGet_mem {α : Type} (k : String) (v : α) (l : List (String × α))
    (h : assocGet k l = some v) : (k, v) ∈ l := by
  induction l with
  | nil => simp [assocGet] at h
  | cons p rest ih =>
    obtain ⟨k₁, v₁⟩ := p
    by_cases h₁ : k₁ = k
    · subst h₁
      simp [assocGet] at h
      simp [h]
    · simp [assocGet, h₁] at h
      exact List.mem_cons_of_mem _ (ih h)

theorem assocSet_keys_of_has {α : Type} (k : String) (v : α) (l : List (String × α))
    (h : assocHas k l = true) :
    (assocSet k v l).map Prod.fst = l.map Prod.fst := by
  induction l with
  | nil => simp [assocHas, assocGet] at h
  | cons p rest ih =>
    obtain ⟨k₁, v₁⟩ := p
    by_cases h₁ : k₁ = k
    · simp [assocSet, h₁]
    · have h₂ : assocHas k rest = true := by
        unfold assocHas at h ⊢
        simp only [assocGet, if_neg h₁] at h
        exact h
      simp [assocSet, h₁, ih h₂]

theorem assocDelete_keys_nodup {α : Type} (k : String) (l : List (String × α))
    (h : (l.map Prod.fst).Nodup) : ((assocDelete k l).map Prod.fst).Nodup := by
  have hsub : List.Sublist ((assocDelete k l).map Prod.fst) (l.map Prod.fst) :=
    List.Sublist.map Prod.fst (List.filter_sublist l)
  exact List.Nodup.sublist hsub h

theorem assocGet_eq_none_iff {α : Type} (k : String) (l : List (String × α)) :
    assocGet k l = none ↔ ¬k ∈ l.map Prod.fst := by
  induction l with
  | nil => simp [assocGet]
  | cons p rest ih =>
    obtain ⟨k₁, v₁⟩ := p
    by_cases h : k₁ = k
    · subst h
      simp [assocGet]
    · simp only [List.map_cons, List.mem_cons]
      simp only [assocGet, if_neg h]
      rw [ih]
      have h' : ¬k = k₁ := fun hh => h hh.symm
      tauto

theorem assocDelete_of_get_none {α : Type} (k : String) (l : List (String × α))
    (h : assocGet k l = none) : assocDelete k l = l := by
  induction l with
  | nil => simp [assocDelete]
  | cons p rest ih =>
    obtain ⟨k₁, v₁⟩ := p
    by_cases h₁ : k₁ = k
    · simp only [assocGet, if_pos h₁] at h
      exact absurd h (by simp)
    · simp only [assocGet, if_neg h₁] at h
      rw [assocDelete_cons, if_neg h₁, ih h]

/- ## Host-count lemmas -/

theorem countHost_cons (k : String) (u : RoomUser) (l : List (String × RoomUser)) :
    countHost ((k, u) :: l) = (if u.role = "host" then 1 else 0) + countHost l := by
  by_cases h : u.role = "host"
  · simp [countHost, List.filter_cons, h, Nat.add_comm]
  · simp [countHost, List.filter_cons, h]

theorem countHost_append (l₁ l₂ : List (String × RoomUser)) :
    countHost (l₁ ++ l₂) = countHost l₁ + countHost l₂ := by
  simp [countHost, List.filter_append]

theorem setHeadHost_keys (l : List (String × RoomUser)) :
    (setHeadHost l).map Prod.fst = l.map Prod.fst := by
  cases l with
  | nil => rfl
  | cons p rest =>
    obtain ⟨k, u⟩ := p
    simp [setHeadHost]

theorem setHeadHost_length (l : List (String × RoomUser)) :
    (setHeadHost l).length = l.length := by
  cases l with
  | nil => rfl
  | cons p rest =>
    obtain ⟨k, u⟩ := p
    simp [setHeadHost]

theorem countHost_setHeadHost_cons (k : String) (u : RoomUser)
    (l : List (String × RoomUser)) :
    countHost (setHeadHost ((k, u) :: l)) = 1 + countHost l := by
  simp [setHeadHost, countHost_cons]

/-- Deleting the entry at a key from a duplicate-free association list removes
exactly that entry's contribution to the host count. -/
theorem countHost_delete (uid : String) (u : RoomUser) (l : List (String × RoomUser))
    (hnd : (l.map Prod.fst).Nodup) (hget : assocGet uid l = some u) :
    countHost (assocDelete uid l) + (if u.role = "host" then 1 else 0) = countHost l := by
  induction l with
  | nil => simp [assocGet] at hget
  | cons p rest ih =>
    obtain ⟨k₁, v₁⟩ := p
    simp only [List.map_cons, List.nodup_cons] at hnd
    by_cases h₁ : k₁ = uid
    · subst h₁
      have hv : v₁ = u := by simpa [assocGet] using hget
      subst hv
      rw [assocDelete_cons, if_pos rfl]
      have hnone : assocGet k₁ rest = none := (assocGet_eq_none_iff _ _).mpr hnd.1
      rw [assocDelete_of_get_none _ _ hnone, countHost_cons]
      omega
    · simp only [assocGet, if_neg h₁] at hget
      rw [assocDelete_cons, if_neg h₁, countHost_cons, countHost_cons]
      have hrec := ih hnd.2 hget
      omega

/- ## Room invariants -/

/-- A non-empty room has exactly one host. -/
def hostOK (room : Room) : Prop :=
  room.users ≠ [] → countHost room.users = 1

/-- Participant count within capacity. -/
def capOK (room : Room) : Prop :=
  room.users.length ≤ room.maxUsers

/-- Participant keys are duplicate-free (inherent to a JS `Map`). -/
def keysOK (room : Room) : Prop :=
  (room.users.map Prod.fst).Nodup

def roomOK (room : Room) : Prop :=
  hostOK room ∧ capOK room ∧ keysOK room

theorem assocHas_iff_mem {α : Type} (k : String) (l : List (String × α)) :
    assocHas k l = true ↔ k ∈ l.map Prod.fst := by
  constructor
  · intro h
    rcases (assocHas_true_iff k l).mp h with ⟨v, hv⟩
    exact List.mem_map_of_mem Prod.fst (assocGet_mem k v l hv)
  · intro h
    cases hh : assocHas k l with
    | true => rfl
    | false =>
      have := (assocHas_false_iff k l).mp hh
      exact absurd h ((assocGet_eq_none_iff k l).mp this)

/-- Setting an absent key appends the new entry. -/
theorem assocSet_of_not_has {α : Type} (k : String) (v : α) (l : List (String × α))
    (h : assocHas k l = false) : assocSet k v l = l ++ [(k, v)] := by
  induction l with
  | nil => rfl
  | cons p rest ih =>
    obtain ⟨k₁, v₁⟩ := p
    have h₁ : ¬k₁ = k := by
      intro he
      rw [assocHas, assocGet, if_pos he] at h
      cases h
    have h₂ : assocHas k rest = false := by
      rw [assocHas, assocGet, if_neg h₁] at h
      exact h
    simp only [assocSet, if_neg h₁, ih h₂, List.cons_append]

/-- Shape of a successful `Room.addUser`. -/
theorem Room.addUser_ok_spec {room : Room} {userId : String} {info : UserInfo}
    {now : Nat} {room' : Room} {user : RoomUser}
    (h : room.addUser userId info now = .ok (room', user)) :
    room.users.length < room.maxUsers ∧ assocHas userId room.users = false ∧
    user.role = (if room.users.length = 0 then "host" else "participant") ∧
    room' = { room with users := room.users ++ [(userId, user)] } := by
  unfold Room.addUser at h
  split at h
  · exact absurd h (by simp)
  · split at h
    · exact absurd h (by simp)
    · rename_i hlen hhas
      simp only [Except.ok.injEq, Prod.mk.injEq] at h
      obtain ⟨hroom, huser⟩ := h
      subst huser
      have hb : assocHas userId room.users = false := by
        cases hb : assocHas userId room.users with
        | false => rfl
        | true => exact absurd hb hhas
      refine ⟨Nat.lt_of_not_le hlen, hb, rfl, ?_⟩
      rw [← hroom, assocSet_of_not_has _ _ _ hb]

/-- `Room.addUser` preserves the room invariants. -/
theorem roomOK_addUser {room room' : Room} {userId : String} {info : UserInfo}
    {now : Nat} {user : RoomUser} (h : roomOK room)
    (hok : room.addUser userId info now = .ok (room', user)) : roomOK room' := by
  obtain ⟨hlt, hhas, hrole, hr⟩ := Room.addUser_ok_spec hok
  obtain ⟨hhost, hcap, hkeys⟩ := h
  subst hr
  refine ⟨?_, ?_, ?_⟩
  · intro _
    show countHost (room.users ++ [(userId, user)]) = 1
    rw [countHost_append]
    rcases List.eq_nil_or_concat room.users with hnil | _
    · rw [if_pos (by simp [hnil])] at hrole
      simp [hnil, countHost_cons, hrole, countHost]
    · by_cases hne : room.users = []
      · rw [if_pos (by simp [hne])] at hrole
        simp [hne, countHost_cons, hrole, countHost]
      · rw [if_neg (fun hl => hne (List.length_eq_zero.mp hl))] at hrole
        rw [hhost hne]
        simp [countHost_cons, hrole, countHost]
  · show (room.users ++ [(userId, user)]).length ≤ room.maxUsers
    simpa using hlt
  · show ((room.users ++ [(userId, user)]).map Prod.fst).Nodup
    have hnotmem : ¬userId ∈ room.users.map Prod.fst :=
      (assocGet_eq_none_iff userId room.users).mp ((assocHas_false_iff _ _).mp hhas)
    simp [List.nodup_append, hnotmem]
    exact hkeys

/-- `removeUser` on an untracked user is the identity. -/
theorem Room.removeUser_none {room : Room} {userId : String}
    (h : assocGet userId room.users = none) : room.removeUser userId = (room, none) := by
  unfold Room.removeUser
  rw [h]

/-- Shape of `removeUser` on a tracked user. -/
theorem Room.removeUser_some {room : Room} {userId : String} {u : RoomUser}
    (h : assocGet userId room.users = some u) :
    room.removeUser userId =
      ({ room with users :=
          if u.role = "host" ∧ (assocDelete userId room.users).length ≠ 0 then
            setHeadHost (assocDelete userId room.users)
          else assocDelete userId room.users },
       some u) := by
  unfold Room.removeUser
  rw [h]

/-- The departing user is gone from the result. -/
theorem Room.removeUser_get_self (room : Room) (userId : String) :
    assocGet userId (room.removeUser userId).1.users = none := by
  cases h : assocGet userId room.users with
  | none => rw [Room.removeUser_none h]; exact h
  | some u =>
    rw [Room.removeUser_some h]
    show assocGet userId (if _ then _ else _) = none
    split
    · rw [assocGet_eq_none_iff, setHeadHost_keys, ← assocGet_eq_none_iff]
      exact assocGet_delete_self userId room.users
    · exact assocGet_delete_self userId room.users

/-- Keys of the result are among the original keys. -/
theorem Room.removeUser_keys_subset (room : Room) (userId k : String)
    (h : k ∈ ((room.removeUser userId).1.users).map Prod.fst) :
    k ∈ room.users.map Prod.fst := by
  cases hg : assocGet userId room.users with
  | none => rw [Room.removeUser_none hg] at h; exact h
  | some u =>
    rw [Room.removeUser_some hg] at h
    simp only at h
    have hdel : k ∈ (assocDelete userId room.users).map Prod.fst := by
      by_cases hc : u.role = "host" ∧ (assocDelete userId room.users).length ≠ 0
      · rwa [if_pos hc, setHeadHost_keys] at h
      · rwa [if_neg hc] at h
    rcases List.mem_map.mp hdel with ⟨p, hp, hk⟩
    exact hk ▸ List.mem_map_of_mem Prod.fst (List.mem_of_mem_filter hp)

/-- All fields other than `users` are untouched. -/
theorem Room.removeUser_maxUsers (room : Room) (userId : String) :
    (room.removeUser userId).1.maxUsers = room.maxUsers := by
  cases hg : assocGet userId room.users with
  | none => rw [Room.removeUser_none hg]
  | some u => rw [Room.removeUser_some hg]

theorem Room.removeUser_len_le (room : Room) (userId : String) :
    (room.removeUser userId).1.users.length ≤ room.users.length := by
  cases hg : assocGet userId room.users with
  | none => rw [Room.removeUser_none hg]
  | some u =>
    rw [Room.removeUser_some hg]
    show (if _ then _ else _ : List _).length ≤ _
    have hd : (assocDelete userId room.users).length ≤ room.users.length :=
      List.length_filter_le _ _
    split
    · rw [setHeadHost_length]; exact hd
    · exact hd

/-- `Room.removeUser` preserves the room invariants. -/
theorem roomOK_removeUser {room : Room} (userId : String) (h : roomOK room) :
    roomOK (room.removeUser userId).1 := by
  obtain ⟨hhost, hcap, hkeys⟩ := h
  cases hg : assocGet userId room.users with
  | none => rw [Room.removeUser_none hg]; exact ⟨hhost, hcap, hkeys⟩
  | some u =>
    rw [Room.removeUser_some hg]
    have hne : room.users ≠ [] := by
      intro hnil
      rw [hnil] at hg
      simp [assocGet] at hg
    have hcount := countHost_delete userId u room.users hkeys hg
    have hnd : ((assocDelete userId room.users).map Prod.fst).Nodup :=
      assocDelete_keys_nodup userId room.users hkeys
    have hlen : (assocDelete userId room.users).length ≤ room.users.length :=
      List.length_filter_le _ _
    by_cases hc : u.role = "host" ∧ (assocDelete userId room.users).length ≠ 0
    · rw [if_pos hc]
      have hc1 : countHost (assocDelete userId room.users) + 1 = 1 := by
        rw [if_pos hc.1, hhost hne] at hcount
        exact hcount
      cases hd : assocDelete userId room.users with
      | nil => exact absurd (by rw [hd]; rfl) hc.2
      | cons p rest =>
        obtain ⟨k₀, u₀⟩ := p
        refine ⟨?_, ?_, ?_⟩
        · intro _
          show countHost (setHeadHost ((k₀, u₀) :: rest)) = 1
          rw [countHost_setHeadHost_cons]
          rw [hd, countHost_cons] at hc1
          omega
        · show (setHeadHost ((k₀, u₀) :: rest)).length ≤ room.maxUsers
          rw [setHeadHost_length, ← hd]
          exact le_trans hlen hcap
        · show ((setHeadHost ((k₀, u₀) :: rest)).map Prod.fst).Nodup
          rw [setHeadHost_keys, ← hd]
          exact hnd
    · rw [if_neg hc]
      refine ⟨?_, le_trans hlen hcap, hnd⟩
      intro hne₁
      have hrne : u.role ≠ "host" := by
        intro hr
        exact hc ⟨hr, fun hl => hne₁ (List.length_eq_zero.mp hl)⟩
      rw [if_neg hrne] at hcount
      rw [Nat.add_zero] at hcount
      rw [hcount]
      exact hhost hne

/- ## RoomManager invariants -/

/-- Every stored room satisfies the room invariants, and every participant of
a stored room is indexed to that room by `userRoomMap`. -/
def RMInv (s : RoomManager) : Prop :=
  (∀ rid room, assocGet rid s.rooms = some room → roomOK room) ∧
  (∀ rid room uid, assocGet rid s.rooms = some room →
    assocHas uid room.users = true → assocGet uid s.userRoomMap = some rid)

theorem RMInv_init : RMInv rmInit := by
  constructor
  · intro rid room h
    simp [rmInit, assocGet] at h
  · intro rid room uid h
    simp [rmInit, assocGet] at h

/-- The capacity the created room ends up with. -/
def clampedCapacity (requested : Option Nat) : Nat :=
  match requested with
  | some m => if m = 0 then 10 else min m 50
  | none => 10

theorem RoomManager.createRoom_spec (s : RoomManager) (createdBy : Option String)
    (settings : CreateSettings) (now : Nat) :
    (s.createRoom createdBy settings now).2.users = [] ∧
    (s.createRoom createdBy settings now).2.isActive = true ∧
    (s.createRoom createdBy settings now).2.maxUsers = clampedCapacity settings.maxUsers ∧
    (s.createRoom createdBy settings now).2.roomId = toString s.nextRoomId ∧
    (s.createRoom createdBy settings now).1.rooms =
      assocSet (toString s.nextRoomId) (s.createRoom createdBy settings now).2 s.rooms ∧
    (s.createRoom createdBy settings now).1.userRoomMap = s.userRoomMap := by
  unfold RoomManager.createRoom clampedCapacity Room.new
  cases hm : settings.maxUsers with
  | none =>
    by_cases hrp : settings.requirePassword = true
    · simp [hm, hrp]
    · simp [hm, hrp]
  | some m =>
    by_cases hz : m = 0
    · by_cases hrp : settings.requirePassword = true
      · simp [hm, hz, hrp]
      · simp [hm, hz, hrp]
    · by_cases hrp : settings.requirePassword = true
      · simp [hm, hz, hrp]
      · simp [hm, hz, hrp]

theorem RMInv_createRoom {s : RoomManager} (h : RMInv s) (createdBy : Option String)
    (settings : CreateSettings) (now : Nat) :
    RMInv (s.createRoom createdBy settings now).1 := by
  obtain ⟨hnil, _, _, _, hrooms, hmap⟩ :=
    RoomManager.createRoom_spec s createdBy settings now
  constructor
  · intro rid room hget
    rw [hrooms] at hget
    by_cases hrid : rid = toString s.nextRoomId
    · subst hrid
      rw [assocGet_set_self] at hget
      cases hget
      refine ⟨?_, ?_, ?_⟩
      · intro hne
        exact absurd hnil hne
      · show _ ≤ _
        rw [hnil]
        exact Nat.zero_le _
      · show List.Nodup (List.map Prod.fst _)
        rw [hnil]
        simp
    · rw [assocGet_set_ne _ _ _ _ hrid] at hget
      exact h.1 rid room hget
  · intro rid room uid hget hhas
    rw [hrooms] at hget
    rw [hmap]
    by_cases hrid : rid = toString s.nextRoomId
    · subst hrid
      rw [assocGet_set_self] at hget
      cases hget
      rw [hnil] at hhas
      simp [assocHas, assocGet] at hhas
    · rw [assocGet_set_ne _ _ _ _ hrid] at hget
      exact h.2 rid room uid hget hhas

/- ## leaveRoom lemmas -/

theorem RoomManager.leaveRoom_no_map {s : RoomManager} {userId : String}
    (h : assocGet userId s.userRoomMap = none) : s.leaveRoom userId = (s, none) := by
  unfold RoomManager.leaveRoom
  rw [h]

theorem RoomManager.leaveRoom_no_room {s : RoomManager} {userId roomId : String}
    (hmap : assocGet userId s.userRoomMap = some roomId)
    (hroom : assocGet roomId s.rooms = none) : s.leaveRoom userId = (s, none) := by
  unfold RoomManager.leaveRoom
  rw [hmap]
  dsimp only
  rw [hroom]

theorem RoomManager.leaveRoom_found {s : RoomManager} {userId roomId : String}
    {room : Room} (hmap : assocGet userId s.userRoomMap = some roomId)
    (hroom : assocGet roomId s.rooms = some room) :
    s.leaveRoom userId =
      ({ s with
          rooms :=
            if (room.removeUser userId).1.isEmpty then
              assocDelete roomId (assocSet roomId (room.removeUser userId).1 s.rooms)
            else assocSet roomId (room.removeUser userId).1 s.rooms
          userRoomMap := assocDelete userId s.userRoomMap },
       some ((room.removeUser userId).1, (room.removeUser userId).2)) := by
  unfold RoomManager.leaveRoom
  rw [hmap]
  dsimp only
  rw [hroom]

/-- After `leaveRoom userId`, rooms other than the user's mapped room are
untouched; with no mapped room, nothing is. -/
theorem RoomManager.leaveRoom_rooms_ne {s : RoomManager} {userId roomId : String}
    (h : ∀ rid, assocGet userId s.userRoomMap = some rid → roomId ≠ rid) :
    assocGet roomId (s.leaveRoom userId).1.rooms = assocGet roomId s.rooms := by
  cases hmap : assocGet userId s.userRoomMap with
  | none => rw [RoomManager.leaveRoom_no_map hmap]
  | some rid =>
    cases hroom : assocGet rid s.rooms with
    | none => rw [RoomManager.leaveRoom_no_room hmap hroom]
    | some room =>
      rw [RoomManager.leaveRoom_found hmap hroom]
      have hne := h rid hmap
      show assocGet roomId (if _ then _ else _) = _
      split
      · rw [assocGet_delete_ne _ _ _ hne, assocGet_set_ne _ _ _ _ hne]
      · rw [assocGet_set_ne _ _ _ _ hne]

theorem RoomManager.leaveRoom_map_ne {s : RoomManager} {userId uid : String}
    (h : uid ≠ userId) :
    assocGet uid (s.leaveRoom userId).1.userRoomMap = assocGet uid s.userRoomMap := by
  cases hmap : assocGet userId s.userRoomMap with
  | none => rw [RoomManager.leaveRoom_no_map hmap]
  | some rid =>
    cases hroom : assocGet rid s.rooms with
    | none => rw [RoomManager.leaveRoom_no_room hmap hroom]
    | some room =>
      rw [RoomManager.leaveRoom_found hmap hroom]
      exact assocGet_delete_ne _ _ _ h

/-- `leaveRoom` preserves the manager invariants. -/
theorem RMInv_leaveRoom {s : RoomManager} (h : RMInv s) (userId : String) :
    RMInv (s.leaveRoom userId).1 := by
  cases hmap : assocGet userId s.userRoomMap with
  | none => rw [RoomManager.leaveRoom_no_map hmap]; exact h
  | some rid₀ =>
    cases hroom : assocGet rid₀ s.rooms with
    | none => rw [RoomManager.leaveRoom_no_room hmap hroom]; exact h
    | some room₀ =>
      rw [RoomManager.leaveRoom_found hmap hroom]
      have hgetrid : ∀ rid room,
          assocGet rid
            (if (room₀.removeUser userId).1.isEmpty then
              assocDelete rid₀ (assocSet rid₀ (room₀.removeUser userId).1 s.rooms)
            else assocSet rid₀ (room₀.removeUser userId).1 s.rooms) = some room →
          (rid = rid₀ ∧ room = (room₀.removeUser userId).1) ∨
          (rid ≠ rid₀ ∧ assocGet rid s.rooms = some room) := by
        intro rid room hget
        by_cases hrid : rid = rid₀
        · subst hrid
          split at hget
          · rw [assocGet_delete_self] at hget
            cases hget
          · rw [assocGet_set_self] at hget
            exact Or.inl ⟨rfl, (Option.some.injEq _ _ ▸ hget).symm⟩
        · right
          refine ⟨hrid, ?_⟩
          split at hget
          · rwa [assocGet_delete_ne _ _ _ hrid, assocGet_set_ne _ _ _ _ hrid] at hget
          · rwa [assocGet_set_ne _ _ _ _ hrid] at hget
      constructor
      · intro rid room hget
        rcases hgetrid rid room hget with ⟨_, hr⟩ | ⟨_, hr⟩
        · subst hr
          exact roomOK_removeUser userId (h.1 rid₀ room₀ hroom)
        · exact h.1 rid room hr
      · intro rid room uid hget hhas
        rcases hgetrid rid room hget with ⟨hrid, hr⟩ | ⟨hrid, hr⟩
        · have huid : uid ≠ userId := by
            intro he
            rw [he, hr] at hhas
            rw [(assocHas_false_iff _ _).mpr (Room.removeUser_get_self room₀ userId)] at hhas
            cases hhas
          rw [assocGet_delete_ne _ _ _ huid, hrid]
          have hmem : uid ∈ room₀.users.map Prod.fst := by
            have hm := (assocHas_iff_mem _ _).mp hhas
            rw [hr] at hm
            exact Room.removeUser_keys_subset room₀ userId uid hm
          exact h.2 rid₀ room₀ uid hroom ((assocHas_iff_mem _ _).mpr hmem)
        · have hmapuid := h.2 rid room uid hr hhas
          have huid : uid ≠ userId := by
            intro he
            subst he
            rw [hmap] at hmapuid
            cases hmapuid
            exact hrid rfl
          rw [assocGet_delete_ne _ _ _ huid]
          exact hmapuid

/-- After `leaveRoom userId`, the user is a member of no stored room. -/
theorem RoomManager.leaveRoom_not_in_any {s : RoomManager} (h : RMInv s)
    (userId : String) :
    ∀ rid room, assocGet rid (s.leaveRoom userId).1.rooms = some room →
      assocHas userId room.users = false := by
  intro rid room hget
  cases hmap : assocGet userId s.userRoomMap with
  | none =>
    rw [RoomManager.leaveRoom_no_map hmap] at hget
    cases hhas : assocHas userId room.users with
    | false => rfl
    | true =>
      have := h.2 rid room userId hget hhas
      rw [hmap] at this
      cases this
  | some rid₀ =>
    cases hroom : assocGet rid₀ s.rooms with
    | none =>
      rw [RoomManager.leaveRoom_no_room hmap hroom] at hget
      cases hhas : assocHas userId room.users with
      | false => rfl
      | true =>
        have hx := h.2 rid room userId hget hhas
        rw [hmap] at hx
        cases hx
        rw [hroom] at hget
        cases hget
    | some room₀ =>
      rw [RoomManager.leaveRoom_found hmap hroom] at hget
      by_cases hrid : rid = rid₀
      · subst hrid
        split at hget
        · rw [assocGet_delete_self] at hget
          cases hget
        · rw [assocGet_set_self] at hget
          cases hget
          exact (assocHas_false_iff _ _).mpr (Room.removeUser_get_self room₀ userId)
      · have hr : assocGet rid s.rooms = some room := by
          split at hget
          · rwa [assocGet_delete_ne _ _ _ hrid, assocGet_set_ne _ _ _ _ hrid] at hget
          · rwa [assocGet_set_ne _ _ _ _ hrid] at hget
        cases hhas : assocHas userId room.users with
        | false => rfl
        | true =>
          have hx := h.2 rid room userId hr hhas
          rw [hmap] at hx
          cases hx
          exact absurd rfl hrid

/- ## joinRoom lemmas -/

/-- `joinRoom` preserves the manager invariants. -/
theorem RMInv_joinRoom {s : RoomManager} (h : RMInv s) (roomId userId : String)
    (info : UserInfo) (pw : Option String) (now : Nat) :
    RMInv (s.joinRoom roomId userId info pw now).1 := by
  unfold RoomManager.joinRoom
  cases hr : assocGet roomId s.rooms with
  | none => exact h
  | some room₀ =>
    dsimp only
    by_cases hact : room₀.isActive = true
    · rw [if_neg (not_not_intro hact)]
      by_cases hpw : room₀.validatePassword pw = true
      · rw [if_neg (not_not_intro hpw)]
        have h₁ : RMInv (s.leaveRoom userId).1 := RMInv_leaveRoom h userId
        have hnotin := RoomManager.leaveRoom_not_in_any h userId
        cases hcur : assocGet roomId (s.leaveRoom userId).1.rooms with
        | some roomCur =>
          dsimp only
          cases hadd : roomCur.addUser userId info now with
          | error e => exact h₁
          | ok ru =>
            dsimp only
            have hadd' : roomCur.addUser userId info now = .ok (ru.1, ru.2) := by
              rw [hadd]
            rw [if_pos ((assocHas_true_iff _ _).mpr ⟨roomCur, hcur⟩)]
            obtain ⟨_, hhasf, _, hshape⟩ := Room.addUser_ok_spec hadd'
            have husers : ru.1.users = roomCur.users ++ [(userId, ru.2)] := by
              rw [hshape]
            have hnotinCur : assocHas userId roomCur.users = false :=
              hnotin roomId roomCur hcur
            constructor
            · intro rid room hget
              by_cases hrid : rid = roomId
              · rw [hrid, assocGet_set_self] at hget
                cases hget
                exact roomOK_addUser (h₁.1 roomId roomCur hcur) hadd'
              · rw [assocGet_set_ne _ _ _ _ hrid] at hget
                exact h₁.1 rid room hget
            · intro rid room uid hget hhas
              by_cases hrid : rid = roomId
              · rw [hrid, assocGet_set_self] at hget
                cases hget
                rw [husers] at hhas
                have hmem := (assocHas_iff_mem _ _).mp hhas
                rw [List.map_append] at hmem
                rcases List.mem_append.mp hmem with hmem₁ | hmem₂
                · have huid : uid ≠ userId := by
                    intro he
                    rw [he] at hmem₁
                    exact (assocGet_eq_none_iff _ _).mp
                      ((assocHas_false_iff _ _).mp hnotinCur) hmem₁
                  rw [hrid, assocGet_set_ne _ _ _ _ huid]
                  exact h₁.2 roomId roomCur uid hcur ((assocHas_iff_mem _ _).mpr hmem₁)
                · have huid : uid = userId := by simpa using hmem₂
                  rw [hrid, huid, assocGet_set_self]
              · rw [assocGet_set_ne _ _ _ _ hrid] at hget
                have hmapuid := h₁.2 rid room uid hget hhas
                have huid : uid ≠ userId := by
                  intro he
                  rw [he] at hhas
                  rw [hnotin rid room hget] at hhas
                  cases hhas
                rw [assocGet_set_ne _ _ _ _ huid]
                exact hmapuid
        | none =>
          dsimp only
          cases hadd : ((room₀.removeUser userId).1.addUser userId info now) with
          | error e => exact h₁
          | ok ru =>
            dsimp only
            have hf := (assocHas_false_iff roomId (s.leaveRoom userId).1.rooms).mpr hcur
            rw [if_neg (by rw [hf]; exact (by decide : ¬false = true))]
            constructor
            · intro rid room hget
              exact h₁.1 rid room hget
            · intro rid room uid hget hhas
              have hmapuid := h₁.2 rid room uid hget hhas
              have huid : uid ≠ userId := by
                intro he
                rw [he] at hhas
                rw [hnotin rid room hget] at hhas
                cases hhas
              rw [assocGet_set_ne _ _ _ _ huid]
              exact hmapuid
      · rw [if_pos hpw]
        exact h
    · rw [if_pos hact]
      exact h

/-- Every reachable `RoomManager` state satisfies the invariants. -/
theorem RMInv_runRM (tr : List RMOp) : RMInv (runRM tr) := by
  suffices h : ∀ s, RMInv s → RMInv (tr.foldl RMOp.step s) from h rmInit RMInv_init
  induction tr with
  | nil => intro s hs; exact hs
  | cons op rest ih =>
    intro s hs
    refine ih _ ?_
    cases op with
    | create createdBy settings now => exact RMInv_createRoom hs createdBy settings now
    | join roomId userId info password now =>
      exact RMInv_joinRoom hs roomId userId info password now
    | leave userId => exact RMInv_leaveRoom hs userId

/-- On success, `joinRoom` indexes the user to the joined room. -/
theorem RoomManager.joinRoom_ok_map {s : RoomManager} {roomId userId : String}
    {info : UserInfo} {pw : Option String} {now : Nat} {s' : RoomManager}
    {ru : Room × RoomUser}
    (h : s.joinRoom roomId userId info pw now = (s', .ok ru)) :
    assocGet userId s'.userRoomMap = some roomId := by
  unfold RoomManager.joinRoom at h
  cases hr : assocGet roomId s.rooms with
  | none =>
    rw [hr] at h
    cases h
  | some room₀ =>
    rw [hr] at h
    dsimp only at h
    by_cases hact : room₀.isActive = true
    · rw [if_neg (not_not_intro hact)] at h
      by_cases hpw : room₀.validatePassword pw = true
      · rw [if_neg (not_not_intro hpw)] at h
        cases hcur : assocGet roomId (s.leaveRoom userId).1.rooms with
        | some roomCur =>
          rw [hcur] at h
          dsimp only at h
          cases hadd : roomCur.addUser userId info now with
          | error e =>
            rw [hadd] at h
            dsimp only at h
            cases h
          | ok ru₁ =>
            rw [hadd] at h
            dsimp only at h
            cases h
            exact assocGet_set_self userId roomId _
        | none =>
          rw [hcur] at h
          dsimp only at h
          cases hadd : ((room₀.removeUser userId).1.addUser userId info now) with
          | error e =>
            rw [hadd] at h
            dsimp only at h
            cases h
          | ok ru₁ =>
            rw [hadd] at h
            dsimp only at h
            cases h
            exact assocGet_set_self userId roomId _
      · rw [if_pos hpw] at h
        cases h
    · rw [if_pos hact] at h
      cases h

/- ## Sample traces used to exhibit concrete states -/

def infoOf (n : String) : UserInfo :=
  { name := some n, socketId := n }

def noSettings : CreateSettings :=
  { maxUsers := none, requirePassword := false, password := none }

def cap2Settings : CreateSettings :=
  { maxUsers := some 2, requirePassword := false, password := none }

/-- Create a capacity-2 room (id "0"), then join participants A and B. -/
def sampleTraceAB : List RMOp :=
  [.create none cap2Settings 0,
   .join "0" "A" (infoOf "A") none 1,
   .join "0" "B" (infoOf "B") none 2]

def fallbackRoom : Room := Room.new "" none 0

def fallbackUser : RoomUser :=
  { userId := "", name := "", socketId := "", joinedAt := 0,
    isAudioEnabled := true, isVideoEnabled := true, isScreenSharing := false,
    role := "" }

def sampleRoomAB : Room :=
  ((runRM sampleTraceAB).getRoom "0").getD fallbackRoom

/-- A is host and leaves; B remains. -/
def sampleTraceHostSwap : List RMOp := sampleTraceAB ++ [.leave "A"]

def sampleRoomHostSwap : Room :=
  ((runRM sampleTraceHostSwap).getRoom "0").getD fallbackRoom

/- ## Claim theorems: room lifecycle -/

/-- C3: in every reachable state every non-empty room has exactly one host;
the first participant added to an empty room becomes host; and when the host
is removed while others remain, the earliest remaining entry (the head of the
insertion-ordered participant list) becomes host. -/
theorem c3_unique_host :
    (∀ tr rid room, assocGet rid (runRM tr).rooms = some room →
      room.users ≠ [] → countHost room.users = 1) ∧
    (∀ (room : Room) (userId : String) (info : UserInfo) (now : Nat)
      (room' : Room) (user : RoomUser), room.users = [] →
      Room.addUser room userId info now = .ok (room', user) → user.role = "host") ∧
    (∀ (room : Room) (userId : String) (user : RoomUser) (k : String)
      (u : RoomUser) (rest : List (String × RoomUser)),
      assocGet userId room.users = some user →
      user.role = "host" → (room.removeUser userId).1.users = (k, u) :: rest →
      u.role = "host") := by
  refine ⟨?_, ?_, ?_⟩
  · intro tr rid room hget hne
    exact ((RMInv_runRM tr).1 rid room hget).1 hne
  · intro room userId info now room' user hnil hok
    obtain ⟨_, _, hrole, _⟩ := Room.addUser_ok_spec hok
    rw [hrole, if_pos (by rw [hnil]; rfl)]
  · intro room userId user k u rest hget hrole hresult
    rw [Room.removeUser_some hget] at hresult
    simp only at hresult
    by_cases hc : user.role = "host" ∧ (assocDelete userId room.users).length ≠ 0
    · rw [if_pos hc] at hresult
      cases hd : assocDelete userId room.users with
      | nil =>
        rw [hd] at hresult
        cases hresult
      | cons p tl =>
        obtain ⟨k₀, u₀⟩ := p
        rw [hd] at hresult
        simp only [setHeadHost, List.cons.injEq, Prod.mk.injEq] at hresult
        rw [← hresult.1.2]
    · rw [if_neg hc] at hresult
      have hz : (assocDelete userId room.users).length = 0 := by
        by_contra hne
        exact hc ⟨hrole, hne⟩
      rw [List.length_eq_zero.mp hz] at hresult
      cases hresult

/-- Nonvacuity of `c3_unique_host` at concrete inputs. -/
theorem c3_witness :
    (assocGet "0" (runRM sampleTraceHostSwap).rooms = some sampleRoomHostSwap ∧
      sampleRoomHostSwap.users ≠ [] ∧ countHost sampleRoomHostSwap.users = 1) ∧
    ((fallbackRoom.addUser "A" (infoOf "A") 1).toOption.getD (fallbackRoom, fallbackUser) =
        ((fallbackRoom.addUser "A" (infoOf "A") 1).toOption.getD (fallbackRoom, fallbackUser)) ∧
      ((fallbackRoom.addUser "A" (infoOf "A") 1).toOption.getD (fallbackRoom, fallbackUser)).2.role = "host") ∧
    (assocGet "A" sampleRoomAB.users =
        some ((assocGet "A" sampleRoomAB.users).getD fallbackUser) ∧
      ((assocGet "A" sampleRoomAB.users).getD fallbackUser).role = "host" ∧
      (sampleRoomAB.removeUser "A").1.users =
        ("B", (assocGet "B" (sampleRoomAB.removeUser "A").1.users).getD fallbackUser) :: [] ∧
      ((assocGet "B" (sampleRoomAB.removeUser "A").1.users).getD fallbackUser).role = "host") := by
  refine ⟨⟨rfl, by decide, ?_⟩, ⟨rfl, ?_⟩, ⟨rfl, by decide, rfl, ?_⟩⟩
  · exact c3_unique_host.1 sampleTraceHostSwap "0" sampleRoomHostSwap rfl (by decide)
  · exact c3_unique_host.2.1 fallbackRoom "A" (infoOf "A") 1 _ _ rfl rfl
  · exact c3_unique_host.2.2 sampleRoomAB "A"
      ((assocGet "A" sampleRoomAB.users).getD fallbackUser) "B"
      ((assocGet "B" (sampleRoomAB.removeUser "A").1.users).getD fallbackUser) []
      rfl (by decide) rfl

/-- C4: a participant identifier is registered in at most one room in every
reachable state, and a successful `joinRoom` into room B leaves the user a
member of no other stored room (the prior membership was torn down first). -/
theorem c4_at_most_one_room :
    (∀ tr rid₁ rid₂ room₁ room₂ uid,
      assocGet rid₁ (runRM tr).rooms = some room₁ →
      assocGet rid₂ (runRM tr).rooms = some room₂ →
      assocHas uid room₁.users = true → assocHas uid room₂.users = true →
      rid₁ = rid₂) ∧
    (∀ tr ridB userId info pw now s' ru,
      (runRM tr).joinRoom ridB userId info pw now = (s', .ok ru) →
      ∀ rid room, rid ≠ ridB → assocGet rid s'.rooms = some room →
        assocHas userId room.users = false) := by
  constructor
  · intro tr rid₁ rid₂ room₁ room₂ uid h₁ h₂ hh₁ hh₂
    have inv := RMInv_runRM tr
    have m₁ := inv.2 rid₁ room₁ uid h₁ hh₁
    have m₂ := inv.2 rid₂ room₂ uid h₂ hh₂
    rw [m₁] at m₂
    exact (Option.some.injEq _ _).mp m₂
  · intro tr ridB userId info pw now s' ru hjoin rid room hrid hget
    have inv' : RMInv s' := by
      have h := RMInv_joinRoom (RMInv_runRM tr) ridB userId info pw now
      rw [hjoin] at h
      exact h
    cases hhas : assocHas userId room.users with
    | false => rfl
    | true =>
      have hmap := inv'.2 rid room userId hget hhas
      rw [RoomManager.joinRoom_ok_map hjoin] at hmap
      cases hmap
      exact absurd rfl hrid

/-- Rooms "0" (members A, B) and "1" (empty), before B moves to room "1". -/
def sampleTracePre : List RMOp :=
  [.create none cap2Settings 0,
   .create none cap2Settings 0,
   .join "0" "A" (infoOf "A") none 1,
   .join "0" "B" (infoOf "B") none 2]

def sampleJoinMove : RoomManager × Except RoomError (Room × RoomUser) :=
  (runRM sampleTracePre).joinRoom "1" "B" (infoOf "B") none 3

def sampleRuMove : Room × RoomUser :=
  sampleJoinMove.2.toOption.getD (fallbackRoom, fallbackUser)

def sampleRoomMove1 : Room :=
  (assocGet "1" sampleJoinMove.1.rooms).getD fallbackRoom

def sampleRoomMove0 : Room :=
  (assocGet "0" sampleJoinMove.1.rooms).getD fallbackRoom

theorem c4_witness :
    (assocGet "0" (runRM sampleTracePre).rooms =
        some ((assocGet "0" (runRM sampleTracePre).rooms).getD fallbackRoom) ∧
      assocHas "B" ((assocGet "0" (runRM sampleTracePre).rooms).getD fallbackRoom).users = true ∧
      ("0" : String) = "0") ∧
    (sampleJoinMove = (sampleJoinMove.1, .ok sampleRuMove) ∧
      ("0" : String) ≠ "1" ∧
      assocGet "0" sampleJoinMove.1.rooms = some sampleRoomMove0 ∧
      assocHas "B" sampleRoomMove0.users = false) := by
  refine ⟨⟨rfl, by decide, ?_⟩, ⟨rfl, by decide, rfl, ?_⟩⟩
  · exact c4_at_most_one_room.1 sampleTracePre "0" "0"
      ((assocGet "0" (runRM sampleTracePre).rooms).getD fallbackRoom)
      ((assocGet "0" (runRM sampleTracePre).rooms).getD fallbackRoom) "B"
      rfl rfl (by decide) (by decide)
  · exact c4_at_most_one_room.2 sampleTracePre "1" "B" (infoOf "B") none 3
      sampleJoinMove.1 sampleRuMove rfl "0" sampleRoomMove0 (by decide) rfl

/-- C5 as stated is false: a join attempted while the count equals capacity
does not always fail — a *current member* re-joining the full room succeeds,
because the preliminary `leaveRoom` drops the count below capacity before
`addUser` runs (here: room "0" has capacity 2 and members A, B, yet A's
re-join returns success). -/
theorem c5_counterexample :
    sampleRoomAB.users.length = sampleRoomAB.maxUsers ∧
    ∃ ru, ((runRM sampleTraceAB).joinRoom "0" "A" (infoOf "A") none 9).2 =
      .ok ru := by
  exact ⟨by decide, ⟨_, rfl⟩⟩

/-- C5 amended: reachable rooms never exceed their capacity, and an attempted
join by a participant **not currently indexed to that room** when the count
already equals capacity fails with `RoomFull` and leaves the room (hence its
membership) unchanged; the concrete capacity-2 scenario (joins by A and B
succeed, a third join by C fails with `RoomFull`) is included. -/
theorem c5_capacity :
    (∀ tr rid room, assocGet rid (runRM tr).rooms = some room →
      room.users.length ≤ room.maxUsers) ∧
    (∀ (s : RoomManager) (roomId userId : String) (info : UserInfo)
      (pw : Option String) (now : Nat) (room : Room),
      assocGet roomId s.rooms = some room →
      room.isActive = true → room.validatePassword pw = true →
      ((assocGet userId s.userRoomMap).all fun rid => !(rid == roomId)) = true →
      room.maxUsers ≤ room.users.length →
      (s.joinRoom roomId userId info pw now).2 = .error .RoomFull ∧
      assocGet roomId (s.joinRoom roomId userId info pw now).1.rooms =
        some room) ∧
    ((runRM sampleTraceAB).joinRoom "0" "C" (infoOf "C") none 3).2 =
      .error .RoomFull ∧
    ((runRM sampleTraceAB).joinRoom "0" "C" (infoOf "C") none 3).1 =
      runRM sampleTraceAB ∧
    sampleRoomAB.users.map Prod.fst = ["A", "B"] ∧
    sampleRoomAB.maxUsers = 2 := by
  refine ⟨?_, ?_, rfl, by decide, by decide, by decide⟩
  · intro tr rid room hget
    exact ((RMInv_runRM tr).1 rid room hget).2.1
  · intro s roomId userId info pw now room hroom hact hpw hnotmapped hfull
    have hcur : assocGet roomId (s.leaveRoom userId).1.rooms = some room := by
      rw [RoomManager.leaveRoom_rooms_ne ?_]
      · exact hroom
      · intro rid hr
        rw [hr] at hnotmapped
        simp [Option.all] at hnotmapped
        exact fun he => hnotmapped (he ▸ rfl)
    have haddfull : room.addUser userId info now = .error .RoomFull := by
      unfold Room.addUser
      rw [if_pos hfull]
    unfold RoomManager.joinRoom
    rw [hroom]
    dsimp only
    rw [if_neg (not_not_intro hact), if_neg (not_not_intro hpw), hcur]
    dsimp only
    rw [haddfull]
    exact ⟨rfl, hcur⟩

theorem c5_witness :
    (assocGet "0" (runRM sampleTraceAB).rooms = some sampleRoomAB ∧
      sampleRoomAB.users.length ≤ sampleRoomAB.maxUsers) ∧
    (assocGet "0" (runRM sampleTraceAB).rooms = some sampleRoomAB ∧
      sampleRoomAB.isActive = true ∧
      sampleRoomAB.validatePassword none = true ∧
      ((assocGet "C" (runRM sampleTraceAB).userRoomMap).all
        fun rid => !(rid == "0")) = true ∧
      sampleRoomAB.maxUsers ≤ sampleRoomAB.users.length ∧
      ((runRM sampleTraceAB).joinRoom "0" "C" (infoOf "C") none 3).2 =
        .error .RoomFull ∧
      assocGet "0"
        ((runRM sampleTraceAB).joinRoom "0" "C" (infoOf "C") none 3).1.rooms =
        some sampleRoomAB) :=
  ⟨⟨rfl, c5_capacity.1 sampleTraceAB "0" sampleRoomAB rfl⟩,
   ⟨rfl, by decide, by decide, by decide, by decide,
    (c5_capacity.2.1 (runRM sampleTraceAB) "0" "C" (infoOf "C") none 3 sampleRoomAB
      rfl (by decide) (by decide) (by decide) (by decide)).1,
    (c5_capacity.2.1 (runRM sampleTraceAB) "0" "C" (infoOf "C") none 3 sampleRoomAB
      rfl (by decide) (by decide) (by decide) (by decide)).2⟩⟩

/-- C6 as stated is false at a requested capacity of `0`: the code's
truthiness check (`if (settings.maxUsers)`) treats `0` as "no capacity
requested" and keeps the default `10`, not `min 0 50 = 0`. -/
theorem c6_counterexample :
    ¬((rmInit.createRoom none
        { maxUsers := some 0, requirePassword := false, password := none }
        0).2.maxUsers = min 0 50) := by
  decide

/-- C6 amended: `createRoom` always succeeds and stores the room; the
capacity is `min requested 50` for a **nonzero** requested capacity and `10`
when the capacity is absent or zero (zero being falsy in JS). -/
theorem c6_amended_capacity_clamp (s : RoomManager) (createdBy : Option String)
    (settings : CreateSettings) (now : Nat) :
    (∀ m, settings.maxUsers = some m → m ≠ 0 →
      (s.createRoom createdBy settings now).2.maxUsers = min m 50) ∧
    (settings.maxUsers = none ∨ settings.maxUsers = some 0 →
      (s.createRoom createdBy settings now).2.maxUsers = 10) ∧
    (s.createRoom createdBy settings now).1.getRoom
        (s.createRoom createdBy settings now).2.roomId =
      some (s.createRoom createdBy settings now).2 := by
  obtain ⟨_, _, hcap, hid, hrooms, _⟩ :=
    RoomManager.createRoom_spec s createdBy settings now
  refine ⟨?_, ?_, ?_⟩
  · intro m hm hne
    rw [hcap]
    unfold clampedCapacity
    rw [hm]
    exact if_neg hne
  · intro hm
    rw [hcap]
    unfold clampedCapacity
    rcases hm with hm | hm
    · rw [hm]
    · rw [hm]
      rfl
  · show assocGet _ _ = _
    rw [hrooms, hid]
    exact assocGet_set_self _ _ _

theorem c6_witness :
    ((some 60 : Option Nat) = some 60 ∧ (60 : Nat) ≠ 0 ∧
      (rmInit.createRoom none
        { maxUsers := some 60, requirePassword := false, password := none }
        0).2.maxUsers = min 60 50) ∧
    ((none : Option Nat) = none ∨ (none : Option Nat) = some 0) ∧
    (rmInit.createRoom none noSettings 0).2.maxUsers = 10 :=
  ⟨⟨rfl, by decide,
    (c6_amended_capacity_clamp rmInit none
      { maxUsers := some 60, requirePassword := false, password := none } 0).1
      60 rfl (by decide)⟩,
   Or.inl rfl,
   (c6_amended_capacity_clamp rmInit none noSettings 0).2.1 (Or.inl rfl)⟩

/-- Removing the sole member empties the room's participant map. -/
theorem Room.removeUser_sole {room : Room} {userId : String} {u : RoomUser}
    (h : room.users = [(userId, u)]) :
    (room.removeUser userId).1.users = [] := by
  have hget : assocGet userId room.users = some u := by
    rw [h]
    simp [assocGet]
  rw [Room.removeUser_some hget]
  simp only
  rw [h]
  have hdel : assocDelete userId [(userId, u)] = [] := by
    simp [assocDelete]
  rw [hdel, if_neg (by simp)]

/-- C7: when the last remaining participant leaves, the room is deleted from
the directory at once — `getRoom` immediately afterwards returns absent. -/
theorem c7_last_leave_deletes_room (s : RoomManager) (userId roomId : String)
    (room : Room) (u : RoomUser)
    (hmap : assocGet userId s.userRoomMap = some roomId)
    (hroom : assocGet roomId s.rooms = some room)
    (hsole : room.users = [(userId, u)]) :
    (s.leaveRoom userId).1.getRoom roomId = none := by
  rw [RoomManager.leaveRoom_found hmap hroom]
  have hempty : (room.removeUser userId).1.isEmpty = true := by
    unfold Room.isEmpty
    rw [Room.removeUser_sole hsole]
    rfl
  unfold RoomManager.getRoom
  dsimp only
  rw [if_pos hempty]
  exact assocGet_delete_self roomId _

def sampleTraceSolo : List RMOp :=
  [.create none noSettings 0, .join "0" "A" (infoOf "A") none 1]

def sampleRoomSolo : Room :=
  ((runRM sampleTraceSolo).getRoom "0").getD fallbackRoom

def sampleUserSolo : RoomUser :=
  (assocGet "A" sampleRoomSolo.users).getD fallbackUser

theorem c7_witness :
    assocGet "A" (runRM sampleTraceSolo).userRoomMap = some "0" ∧
    assocGet "0" (runRM sampleTraceSolo).rooms = some sampleRoomSolo ∧
    sampleRoomSolo.users = [("A", sampleUserSolo)] ∧
    ((runRM sampleTraceSolo).leaveRoom "A").1.getRoom "0" = none :=
  ⟨by decide, rfl, rfl,
    c7_last_leave_deletes_room (runRM sampleTraceSolo) "A" "0" sampleRoomSolo
      sampleUserSolo (by decide) rfl rfl⟩

/-- C10: the sole participant of room R re-joining R succeeds, yet the
preliminary leave deleted R from the directory: afterwards `getRoom R` is
absent while the reverse index still maps the participant to R. -/
theorem c10_rejoin_sole_member (s : RoomManager) (roomId userId : String)
    (room : Room) (u : RoomUser) (info : UserInfo) (pw : Option String) (now : Nat)
    (hmap : assocGet userId s.userRoomMap = some roomId)
    (hroom : assocGet roomId s.rooms = some room)
    (hsole : room.users = [(userId, u)])
    (hact : room.isActive = true)
    (hpw : room.validatePassword pw = true)
    (hcap : 0 < room.maxUsers) :
    (∃ ru, (s.joinRoom roomId userId info pw now).2 = .ok ru) ∧
    (s.joinRoom roomId userId info pw now).1.getRoom roomId = none ∧
    assocGet userId (s.joinRoom roomId userId info pw now).1.userRoomMap =
      some roomId := by
  have hremusers := Room.removeUser_sole hsole
  have hcur : assocGet roomId (s.leaveRoom userId).1.rooms = none := by
    rw [RoomManager.leaveRoom_found hmap hroom]
    dsimp only
    have hempty : (room.removeUser userId).1.isEmpty = true := by
      unfold Room.isEmpty
      rw [hremusers]
      rfl
    rw [if_pos hempty]
    exact assocGet_delete_self roomId _
  have haddok : ∃ room' user',
      (room.removeUser userId).1.addUser userId info now = .ok (room', user') := by
    unfold Room.addUser
    rw [hremusers, Room.removeUser_maxUsers]
    rw [if_neg (by simp only [List.length_nil, Nat.le_zero]; omega)]
    rw [if_neg (by simp [assocHas, assocGet])]
    exact ⟨_, _, rfl⟩
  obtain ⟨room', user', hadd⟩ := haddok
  have hhasf : assocHas roomId (s.leaveRoom userId).1.rooms = false :=
    (assocHas_false_iff _ _).mpr hcur
  unfold RoomManager.joinRoom
  rw [hroom]
  dsimp only
  rw [if_neg (not_not_intro hact), if_neg (not_not_intro hpw), hcur]
  dsimp only
  rw [hadd]
  dsimp only
  rw [if_neg (by rw [hhasf]; exact (by decide : ¬false = true))]
  refine ⟨⟨(room', user'), rfl⟩, ?_, ?_⟩
  · unfold RoomManager.getRoom
    dsimp only
    exact hcur
  · dsimp only
    exact assocGet_set_self userId roomId _

theorem c10_witness :
    assocGet "A" (runRM sampleTraceSolo).userRoomMap = some "0" ∧
    assocGet "0" (runRM sampleTraceSolo).rooms = some sampleRoomSolo ∧
    sampleRoomSolo.users = [("A", sampleUserSolo)] ∧
    sampleRoomSolo.isActive = true ∧
    sampleRoomSolo.validatePassword none = true ∧
    0 < sampleRoomSolo.maxUsers ∧
    ((∃ ru, ((runRM sampleTraceSolo).joinRoom "0" "A" (infoOf "A") none 9).2 = .ok ru) ∧
      ((runRM sampleTraceSolo).joinRoom "0" "A" (infoOf "A") none 9).1.getRoom "0" = none ∧
      assocGet "A"
        ((runRM sampleTraceSolo).joinRoom "0" "A" (infoOf "A") none 9).1.userRoomMap =
        some "0") :=
  ⟨by decide, rfl, rfl, by decide, by decide, by decide,
    c10_rejoin_sole_member (runRM sampleTraceSolo) "0" "A" sampleRoomSolo
      sampleUserSolo (infoOf "A") none 9 (by decide) rfl rfl (by decide) (by decide)
      (by decide)⟩

/-- C9: a `joinRoom` targeting another room that fails in `Room.addUser`
(RoomFull / DuplicateParticipant) has already torn down the caller's previous
membership: afterwards the user is indexed to no room and is a member of no
stored room. -/
theorem c9_join_failure_not_atomic (s : RoomManager) (ridA ridB userId : String)
    (roomA roomB : Room) (info : UserInfo) (pw : Option String) (now : Nat)
    (e : RoomError)
    (hmap : assocGet userId s.userRoomMap = some ridA)
    (hroomA : assocGet ridA s.rooms = some roomA)
    (hin : assocHas userId roomA.users = true)
    (hne : ridB ≠ ridA)
    (hroomB : assocGet ridB s.rooms = some roomB)
    (hact : roomB.isActive = true)
    (hpw : roomB.validatePassword pw = true)
    (honly : ∀ p ∈ s.rooms, assocHas userId p.2.users = true → p.1 = ridA)
    (hadd : roomB.addUser userId info now = .error e) :
    (s.joinRoom ridB userId info pw now).2 = .error e ∧
    assocGet userId (s.joinRoom ridB userId info pw now).1.userRoomMap = none ∧
    (∀ rid room,
      assocGet rid (s.joinRoom ridB userId info pw now).1.rooms = some room →
      assocHas userId room.users = false) := by
  have hcur : assocGet ridB (s.leaveRoom userId).1.rooms = some roomB := by
    rw [RoomManager.leaveRoom_rooms_ne
      (fun rid hr => by rw [hmap] at hr; cases hr; exact hne)]
    exact hroomB
  unfold RoomManager.joinRoom
  rw [hroomB]
  dsimp only
  rw [if_neg (not_not_intro hact), if_neg (not_not_intro hpw), hcur]
  dsimp only
  rw [hadd]
  dsimp only
  refine ⟨rfl, ?_, ?_⟩
  · rw [RoomManager.leaveRoom_found hmap hroomA]
    dsimp only
    exact assocGet_delete_self userId _
  · intro rid room hget
    rw [RoomManager.leaveRoom_found hmap hroomA] at hget
    dsimp only at hget
    by_cases hrid : rid = ridA
    · split at hget
      · rw [hrid, assocGet_delete_self] at hget
        cases hget
      · rw [hrid, assocGet_set_self] at hget
        cases hget
        exact (assocHas_false_iff _ _).mpr (Room.removeUser_get_self roomA userId)
    · have hg : assocGet rid s.rooms = some room := by
        split at hget
        · rwa [assocGet_delete_ne _ _ _ hrid, assocGet_set_ne _ _ _ _ hrid] at hget
        · rwa [assocGet_set_ne _ _ _ _ hrid] at hget
      cases hhas : assocHas userId room.users with
      | false => rfl
      | true =>
        exact absurd (honly (rid, room) (assocGet_mem _ _ _ hg) hhas) hrid

def cap1Settings : CreateSettings :=
  { maxUsers := some 1, requirePassword := false, password := none }

/-- Room "0" holds A (capacity 1), room "1" holds B (capacity 1). -/
def sampleTraceTwoFull : List RMOp :=
  [.create none cap1Settings 0,
   .create none cap1Settings 0,
   .join "0" "A" (infoOf "A") none 1,
   .join "1" "B" (infoOf "B") none 2]

def sampleRoomFullA : Room :=
  ((runRM sampleTraceTwoFull).getRoom "0").getD fallbackRoom

def sampleRoomFullB : Room :=
  ((runRM sampleTraceTwoFull).getRoom "1").getD fallbackRoom

theorem c9_witness :
    assocGet "A" (runRM sampleTraceTwoFull).userRoomMap = some "0" ∧
    assocGet "0" (runRM sampleTraceTwoFull).rooms = some sampleRoomFullA ∧
    assocHas "A" sampleRoomFullA.users = true ∧
    ("1" : String) ≠ "0" ∧
    assocGet "1" (runRM sampleTraceTwoFull).rooms = some sampleRoomFullB ∧
    sampleRoomFullB.isActive = true ∧
    sampleRoomFullB.validatePassword none = true ∧
    (∀ p ∈ (runRM sampleTraceTwoFull).rooms,
      assocHas "A" p.2.users = true → p.1 = "0") ∧
    sampleRoomFullB.addUser "A" (infoOf "A") 9 = .error .RoomFull ∧
    (((runRM sampleTraceTwoFull).joinRoom "1" "A" (infoOf "A") none 9).2 =
        .error .RoomFull ∧
      assocGet "A"
        ((runRM sampleTraceTwoFull).joinRoom "1" "A" (infoOf "A") none 9).1.userRoomMap =
        none ∧
      (∀ rid room,
        assocGet rid
          ((runRM sampleTraceTwoFull).joinRoom "1" "A" (infoOf "A") none 9).1.rooms =
          some room →
        assocHas "A" room.users = false)) :=
  ⟨by decide, rfl, by decide, by decide, rfl, by decide, by decide, by decide, rfl,
    c9_join_failure_not_atomic (runRM sampleTraceTwoFull) "0" "1" "A"
      sampleRoomFullA sampleRoomFullB (infoOf "A") none 9 .RoomFull
      (by decide) rfl (by decide) (by decide) rfl (by decide) (by decide)
      (by decide) rfl⟩

/- ## Peer-link reachability (WebRTCManager) -/

/-- The tracker stores a peer link from `fromId` toward `toId` in `roomId`
(under `fromId`'s own entry, where `createPeerConnection` puts it). -/
def hasLink (s : WebRTCManager) (roomId fromId toId : String) : Prop :=
  ∃ rc e, assocGet roomId s.connections = some rc ∧
    assocGet fromId rc = some e ∧ assocHas toId e.peers = true

theorem assocHas_set_ne {α : Type} (k k' : String) (v : α) (l : List (String × α))
    (h : k' ≠ k) : assocHas k' (assocSet k v l) = assocHas k' l := by
  unfold assocHas
  rw [assocGet_set_ne _ _ _ _ h]

/-- The entry `WebRTCManager.addUser` creates for a previously untracked
user. -/
def freshEntry (socketId : String) : PeerEntry :=
  { socketId
    peers := []
    isInitiator := false
    mediaState := { audio := true, video := true, screen := false } }

theorem WebRTCManager.addUser_member {s : WebRTCManager} {rid uid : String}
    {rc₀ : List (String × PeerEntry)} (sid : String)
    (hrc : assocGet rid s.connections = some rc₀)
    (huid : assocHas uid rc₀ = true) : s.addUser rid uid sid = s := by
  unfold WebRTCManager.addUser WebRTCManager.initRoom
  rw [if_pos ((assocHas_true_iff _ _).mpr ⟨rc₀, hrc⟩)]
  dsimp only
  rw [hrc]
  dsimp only
  rw [if_pos huid]

theorem WebRTCManager.addUser_existing_room {s : WebRTCManager} {rid uid : String}
    {rc₀ : List (String × PeerEntry)} (sid : String)
    (hrc : assocGet rid s.connections = some rc₀)
    (huid : assocHas uid rc₀ = false) :
    s.addUser rid uid sid =
      { s with connections :=
          assocSet rid (assocSet uid (freshEntry sid) rc₀) s.connections } := by
  unfold WebRTCManager.addUser WebRTCManager.initRoom
  rw [if_pos ((assocHas_true_iff _ _).mpr ⟨rc₀, hrc⟩)]
  dsimp only
  rw [hrc]
  dsimp only
  rw [if_neg (by rw [huid]; exact (by decide : ¬false = true))]
  rfl

theorem WebRTCManager.addUser_new_room {s : WebRTCManager} {rid : String}
    (uid sid : String) (hrc : assocGet rid s.connections = none) :
    s.addUser rid uid sid =
      { s with connections := assocSet rid (assocSet uid (freshEntry sid) []) (assocSet rid [] s.connections) } := by
  unfold WebRTCManager.addUser WebRTCManager.initRoom
  rw [if_neg (by rw [(assocHas_false_iff _ _).mpr hrc]; exact (by decide : ¬false = true))]
  dsimp only
  rw [assocGet_set_self]
  dsimp only
  rw [if_neg (by simp [assocHas, assocGet])]
  rfl

theorem hasLink_addUser {s : WebRTCManager} {rid uid sid R F T : String}
    (h : hasLink (s.addUser rid uid sid) R F T) : hasLink s R F T := by
  obtain ⟨rc, e, hroom, hfrom, hhas⟩ := h
  cases hrc : assocGet rid s.connections with
  | some rc₀ =>
    cases huid : assocHas uid rc₀ with
    | true =>
      rw [WebRTCManager.addUser_member sid hrc huid] at hroom
      exact ⟨rc, e, hroom, hfrom, hhas⟩
    | false =>
      rw [WebRTCManager.addUser_existing_room sid hrc huid] at hroom
      dsimp only at hroom
      by_cases hR : R = rid
      · subst hR
        rw [assocGet_set_self] at hroom
        cases hroom
        by_cases hF : F = uid
        · subst hF
          rw [assocGet_set_self] at hfrom
          cases hfrom
          simp [freshEntry, assocHas, assocGet] at hhas
        · rw [assocGet_set_ne _ _ _ _ hF] at hfrom
          exact ⟨rc₀, e, hrc, hfrom, hhas⟩
      · rw [assocGet_set_ne _ _ _ _ hR] at hroom
        exact ⟨rc, e, hroom, hfrom, hhas⟩
  | none =>
    rw [WebRTCManager.addUser_new_room uid sid hrc] at hroom
    dsimp only at hroom
    by_cases hR : R = rid
    · subst hR
      rw [assocGet_set_self] at hroom
      cases hroom
      by_cases hF : F = uid
      · subst hF
        have : assocGet F (assocSet F (freshEntry sid) ([] : List (String × PeerEntry))) =
            some (freshEntry sid) := assocGet_set_self _ _ _
        rw [this] at hfrom
        cases hfrom
        simp [freshEntry, assocHas, assocGet] at hhas
      · rw [assocGet_set_ne _ _ _ _ hF] at hfrom
        simp [assocGet] at hfrom
    · rw [assocGet_set_ne _ _ _ _ hR, assocGet_set_ne _ _ _ _ hR] at hroom
      exact ⟨rc, e, hroom, hfrom, hhas⟩

theorem hasLink_removeUser {s : WebRTCManager} {rid uid R F T : String}
    (h : hasLink (s.removeUser rid uid).1 R F T) : hasLink s R F T := by
  obtain ⟨rc, e, hroom, hfrom, hhas⟩ := h
  unfold WebRTCManager.removeUser at hroom
  cases hrc : assocGet rid s.connections with
  | none =>
    rw [hrc] at hroom
    exact ⟨rc, e, hroom, hfrom, hhas⟩
  | some rc₀ =>
    rw [hrc] at hroom
    dsimp only at hroom
    by_cases huid : assocHas uid rc₀ = true
    · rw [if_pos huid] at hroom
      by_cases hlen : (assocDelete uid rc₀).length = 0
      · rw [if_pos hlen] at hroom
        dsimp only at hroom
        by_cases hR : R = rid
        · rw [hR, assocGet_delete_self] at hroom
          cases hroom
        · rw [assocGet_delete_ne _ _ _ hR] at hroom
          exact ⟨rc, e, hroom, hfrom, hhas⟩
      · rw [if_neg hlen] at hroom
        dsimp only at hroom
        by_cases hR : R = rid
        · subst hR
          rw [assocGet_set_self] at hroom
          cases hroom
          by_cases hF : F = uid
          · rw [hF, assocGet_delete_self] at hfrom
            cases hfrom
          · rw [assocGet_delete_ne _ _ _ hF] at hfrom
            exact ⟨rc₀, e, hrc, hfrom, hhas⟩
        · rw [assocGet_set_ne _ _ _ _ hR] at hroom
          exact ⟨rc, e, hroom, hfrom, hhas⟩
    · rw [if_neg huid] at hroom
      exact ⟨rc, e, hroom, hfrom, hhas⟩

theorem hasLink_createPeerConnection {s : WebRTCManager}
    {rid f t R F T : String} {tnow : Nat}
    (h : hasLink (s.createPeerConnection rid f t tnow).1 R F T) :
    hasLink s R F T ∨ (rid = R ∧ f = F ∧ t = T) := by
  obtain ⟨rc, e, hroom, hfrom, hhas⟩ := h
  unfold WebRTCManager.createPeerConnection at hroom
  cases hrc : assocGet rid s.connections with
  | none =>
    rw [hrc] at hroom
    exact Or.inl ⟨rc, e, hroom, hfrom, hhas⟩
  | some rc₀ =>
    rw [hrc] at hroom
    dsimp only at hroom
    cases hf : assocGet f rc₀ with
    | none =>
      rw [hf] at hroom
      cases ht : assocGet t rc₀ with
      | none =>
        rw [ht] at hroom
        exact Or.inl ⟨rc, e, hroom, hfrom, hhas⟩
      | some tu =>
        rw [ht] at hroom
        exact Or.inl ⟨rc, e, hroom, hfrom, hhas⟩
    | some fu =>
      rw [hf] at hroom
      cases ht : assocGet t rc₀ with
      | none =>
        rw [ht] at hroom
        exact Or.inl ⟨rc, e, hroom, hfrom, hhas⟩
      | some tu =>
        rw [ht] at hroom
        dsimp only at hroom
        by_cases hR : R = rid
        · subst hR
          rw [assocGet_set_self] at hroom
          cases hroom
          by_cases hF : F = f
          · subst hF
            rw [assocGet_set_self] at hfrom
            cases hfrom
            by_cases hT : T = t
            · exact Or.inr ⟨rfl, rfl, hT.symm⟩
            · rw [assocHas_set_ne _ _ _ _ hT] at hhas
              exact Or.inl ⟨rc₀, fu, hrc, hf, hhas⟩
          · rw [assocGet_set_ne _ _ _ _ hF] at hfrom
            exact Or.inl ⟨rc₀, e, hrc, hfrom, hhas⟩
        · rw [assocGet_set_ne _ _ _ _ hR] at hroom
          exact Or.inl ⟨rc, e, hroom, hfrom, hhas⟩

theorem WebRTCManager.handleOffer_connections (s : WebRTCManager)
    (rid f t payload : String) (tnow : Nat) :
    (s.handleOffer rid f t payload tnow).1.connections =
      (s.createPeerConnection rid f t tnow).1.connections := by
  unfold WebRTCManager.handleOffer
  cases (s.createPeerConnection rid f t tnow).2 with
  | none => rfl
  | some cid => rfl

theorem hasLink_handleAnswer {s : WebRTCManager} {rid f t payload R F T : String}
    (h : hasLink (s.handleAnswer rid f t payload).1 R F T) : hasLink s R F T := by
  obtain ⟨rc, e, hroom, hfrom, hhas⟩ := h
  unfold WebRTCManager.handleAnswer at hroom
  cases hrc : assocGet rid s.connections with
  | none =>
    rw [hrc] at hroom
    exact ⟨rc, e, hroom, hfrom, hhas⟩
  | some rc₀ =>
    rw [hrc] at hroom
    dsimp only at hroom
    cases hf : assocGet f rc₀ with
    | none =>
      rw [hf] at hroom
      exact ⟨rc, e, hroom, hfrom, hhas⟩
    | some fu =>
      rw [hf] at hroom
      dsimp only at hroom
      cases ht : assocGet t fu.peers with
      | none =>
        rw [ht] at hroom
        exact ⟨rc, e, hroom, hfrom, hhas⟩
      | some link =>
        rw [ht] at hroom
        dsimp only at hroom
        by_cases hR : R = rid
        · subst hR
          rw [assocGet_set_self] at hroom
          cases hroom
          by_cases hF : F = f
          · subst hF
            rw [assocGet_set_self] at hfrom
            cases hfrom
            by_cases hT : T = t
            · refine ⟨rc₀, fu, hrc, hf, ?_⟩
              rw [hT]
              exact (assocHas_true_iff _ _).mpr ⟨link, ht⟩
            · rw [assocHas_set_ne _ _ _ _ hT] at hhas
              exact ⟨rc₀, fu, hrc, hf, hhas⟩
          · rw [assocGet_set_ne _ _ _ _ hF] at hfrom
            exact ⟨rc₀, e, hrc, hfrom, hhas⟩
        · rw [assocGet_set_ne _ _ _ _ hR] at hroom
          exact ⟨rc, e, hroom, hfrom, hhas⟩

/-- No tracker operation other than an offer initiated by `fromId` toward
`toId` can create that directed link. -/
theorem hasLink_mono_step (s : WebRTCManager) (op : WOp)
    (roomId fromId toId : String)
    (hop : op.isOfferFromTo roomId fromId toId = false)
    (h : hasLink (WOp.step s op) roomId fromId toId) :
    hasLink s roomId fromId toId := by
  cases op with
  | addUser rid uid sid => exact hasLink_addUser h
  | removeUser rid uid => exact hasLink_removeUser h
  | offer rid f t payload tnow =>
    have h' : hasLink (s.createPeerConnection rid f t tnow).1 roomId fromId toId := by
      obtain ⟨rc, e, hroom, hfrom, hhas⟩ := h
      rw [show (WOp.step s (.offer rid f t payload tnow)).connections =
          (s.handleOffer rid f t payload tnow).1.connections from rfl,
        WebRTCManager.handleOffer_connections] at hroom
      exact ⟨rc, e, hroom, hfrom, hhas⟩
    rcases hasLink_createPeerConnection h' with hl | ⟨h₁, h₂, h₃⟩
    · exact hl
    · exfalso
      unfold WOp.isOfferFromTo at hop
      rw [h₁, h₂, h₃] at hop
      simp at hop
  | answer rid f t payload => exact hasLink_handleAnswer h
  | cleanup tnow =>
    obtain ⟨rc, e, hroom, hfrom, hhas⟩ := h
    exact ⟨rc, e, hroom, hfrom, hhas⟩

/-- A trace containing no offer from `fromId` toward `toId` leaves no such
link in the tracker. -/
theorem noLink_of_noOffer (tr : List WOp) (roomId fromId toId : String)
    (hno : ∀ op ∈ tr, op.isOfferFromTo roomId fromId toId = false) :
    ¬hasLink (runW tr) roomId fromId toId := by
  suffices h : ∀ s, ¬hasLink s roomId fromId toId →
      ¬hasLink (tr.foldl WOp.step s) roomId fromId toId by
    refine h wInit ?_
    rintro ⟨rc, e, hroom, -, -⟩
    simp [wInit, assocGet] at hroom
  induction tr with
  | nil => intro s hs; exact hs
  | cons op rest ih =>
    intro s hs
    refine ih (fun o ho => hno o (List.mem_cons_of_mem op ho)) (WOp.step s op) ?_
    intro hl
    exact hs (hasLink_mono_step s op roomId fromId toId
      (hno op (List.mem_cons_self op rest)) hl)

/-- `handleAnswer` succeeds only by finding a link under the answerer's own
entry. -/
theorem handleAnswer_false_of_noLink {s : WebRTCManager}
    {roomId fromId toId payload : String}
    (h : ¬hasLink s roomId fromId toId) :
    (s.handleAnswer roomId fromId toId payload).2 = false := by
  unfold WebRTCManager.handleAnswer
  cases hrc : assocGet roomId s.connections with
  | none => rfl
  | some rc =>
    dsimp only
    cases hf : assocGet fromId rc with
    | none => rfl
    | some fu =>
      dsimp only
      cases ht : assocGet toId fu.peers with
      | none => rfl
      | some link =>
        exact absurd ⟨rc, fu, hrc, hf, (assocHas_true_iff _ _).mpr ⟨link, ht⟩⟩ h

/-- The C1 signaling scenario: A and B are tracked in room "r", then A
offers to B. -/
def sampleTraceOffer : List WOp :=
  [.addUser "r" "A" "sA", .addUser "r" "B" "sB", .offer "r" "A" "B" "sdpOffer" 5]

/-- C1 as stated fails on the code: after `handleOffer("r","A","B",·)`
returns connection id "A-B" and stores a `connecting` link under A's entry,
`handleAnswer("r","B","A",·)` consults B's (the answerer's) peer map, which
never received that link — it returns `false` and the link stays
`connecting` instead of becoming `connected`. -/
theorem c1_answer_leaves_link_connecting :
    ((runW [.addUser "r" "A" "sA", .addUser "r" "B" "sB"]).handleOffer
        "r" "A" "B" "sdpOffer" 5).2 = some "A-B" ∧
    linkStatus (runW sampleTraceOffer) "r" "A" "B" = some "connecting" ∧
    ((runW sampleTraceOffer).handleAnswer "r" "B" "A" "sdpAnswer").2 = false ∧
    linkStatus ((runW sampleTraceOffer).handleAnswer "r" "B" "A" "sdpAnswer").1
      "r" "A" "B" = some "connecting" := by
  refine ⟨rfl, rfl, rfl, rfl⟩

/-- C2 as stated is false: it asserts failure for every reachable state with
no prior `handleOffer(R, A, B, ·)`, "including states where B has previously
offered to A" — but after B offers to A, B's own entry holds the B→A link
that `handleAnswer(R, B, A, ·)` looks up, so the call returns `true`. -/
def sampleTraceReverse : List WOp :=
  [.addUser "r" "A" "sA", .addUser "r" "B" "sB", .offer "r" "B" "A" "sdpOffer" 5]

theorem c2_counterexample :
    (sampleTraceReverse.all fun op => !op.isOfferFromTo "r" "A" "B") = true ∧
    ((runW sampleTraceReverse).handleAnswer "r" "B" "A" "sdpAnswer").2 = true := by
  refine ⟨rfl, rfl⟩

/-- C2 amended: `handleAnswer(R, B, A, ·)` returns failure in every reachable
tracker state in which no `handleOffer(R, B, A, ·)` — an offer initiated by
the *answerer* toward the target — has ever been performed.  (The original
hypothesis, absence of `handleOffer(R, A, B, ·)`, does not guarantee
failure, as the counterexample shows.) -/
theorem c2_amended_no_own_offer_answer_fails (tr : List WOp)
    (roomId fromId toId payload : String)
    (hno : ∀ op ∈ tr, op.isOfferFromTo roomId fromId toId = false) :
    ((runW tr).handleAnswer roomId fromId toId payload).2 = false :=
  handleAnswer_false_of_noLink (noLink_of_noOffer tr roomId fromId toId hno)

theorem c2_witness :
    (∀ op ∈ sampleTraceOffer, op.isOfferFromTo "r" "B" "A" = false) ∧
    ((runW sampleTraceOffer).handleAnswer "r" "B" "A" "sdpAnswer").2 = false :=
  ⟨by decide,
    c2_amended_no_own_offer_answer_fails sampleTraceOffer "r" "B" "A" "sdpAnswer"
      (by decide)⟩

/- ## Expired-offer sweep (C8) -/

theorem foldl_assocDelete {α : Type} (ks : List String) (l : List (String × α)) :
    ks.foldl (fun m cid => assocDelete cid m) l =
      l.filter (fun x => decide (¬x.1 ∈ ks)) := by
  induction ks generalizing l with
  | nil => simp
  | cons k ks ih =>
    rw [List.foldl_cons]
    show ks.foldl (fun m cid => assocDelete cid m) (assocDelete k l) = _
    rw [ih]
    unfold assocDelete
    rw [List.filter_filter]
    apply List.filter_congr
    intro x _
    by_cases h₁ : x.1 = k
    · simp [h₁]
    · by_cases h₂ : x.1 ∈ ks
      · simp [h₁, h₂]
      · simp [h₁, h₂]

/-- In a duplicate-free association list, an entry is determined by its
key. -/
theorem key_unique {α : Type} {l : List (String × α)} {x y : String × α}
    (hnd : (l.map Prod.fst).Nodup) (hx : x ∈ l) (hy : y ∈ l) (hk : x.1 = y.1) :
    x = y := by
  induction l with
  | nil => cases hx
  | cons p rest ih =>
    simp only [List.map_cons, List.nodup_cons] at hnd
    rcases List.mem_cons.mp hx with hx₀ | hx₁
    · rcases List.mem_cons.mp hy with hy₀ | hy₁
      · rw [hx₀, hy₀]
      · exfalso
        have hmem : y.1 ∈ rest.map Prod.fst := List.mem_map_of_mem Prod.fst hy₁
        rw [← hk, hx₀] at hmem
        exact hnd.1 hmem
    · rcases List.mem_cons.mp hy with hy₀ | hy₁
      · exfalso
        have hmem : x.1 ∈ rest.map Prod.fst := List.mem_map_of_mem Prod.fst hx₁
        rw [hk, hy₀] at hmem
        exact hnd.1 hmem
      · exact ih hnd.2 hx₁ hy₁

/-- With duplicate-free keys, a key belongs to the filtered list's key set
exactly when its own entry passes the filter. -/
theorem mem_filter_keys_iff {α : Type} {l : List (String × α)}
    (p : (String × α) → Bool) (hnd : (l.map Prod.fst).Nodup)
    {x : String × α} (hx : x ∈ l) :
    x.1 ∈ (l.filter p).map Prod.fst ↔ p x = true := by
  constructor
  · intro h
    rcases List.mem_map.mp h with ⟨y, hy, hk⟩
    have hyl : y ∈ l := List.mem_of_mem_filter hy
    have hxy : y = x := key_unique hnd hyl hx hk
    rw [← hxy]
    exact List.of_mem_filter hy
  · intro h
    exact List.mem_map_of_mem Prod.fst (List.mem_filter.mpr ⟨hx, h⟩)

/-- C8: one sweep at time `now` removes exactly the pending offers older than
30000 ms, retains the younger ones (still counted by `getStats`), and leaves
the whole peer-connection store untouched. -/
theorem c8_sweep_exact (s : WebRTCManager) (now : Nat)
    (hnd : (s.pendingOffers.map Prod.fst).Nodup) :
    (s.cleanupPendingOffers now).1.pendingOffers =
      s.pendingOffers.filter (fun p => now - p.2.timestamp ≤ 30000) ∧
    (s.cleanupPendingOffers now).1.connections = s.connections ∧
    (s.cleanupPendingOffers now).1.getStats.pendingOffers =
      (s.pendingOffers.filter (fun p => now - p.2.timestamp ≤ 30000)).length := by
  have hpend : (s.cleanupPendingOffers now).1.pendingOffers =
      s.pendingOffers.filter (fun p => now - p.2.timestamp ≤ 30000) := by
    show ((s.pendingOffers.filter (fun p => 30000 < now - p.2.timestamp)).map
        Prod.fst).foldl (fun m cid => assocDelete cid m) s.pendingOffers = _
    rw [foldl_assocDelete]
    apply List.filter_congr
    intro x hx
    rw [decide_eq_decide]
    rw [mem_filter_keys_iff _ hnd hx]
    constructor
    · intro h
      have h' : ¬30000 < now - x.2.timestamp := fun hlt => h (decide_eq_true hlt)
      omega
    · intro h hc
      exact absurd (of_decide_eq_true hc) (by omega)
  refine ⟨hpend, rfl, ?_⟩
  show (s.cleanupPendingOffers now).1.pendingOffers.length = _
  rw [hpend]

/-- Tracker state with a live peer link and two staged offers, one expired. -/
def sampleSweepState : WebRTCManager :=
  { connections :=
      [("r", [("A", { socketId := "sA"
                      peers := [("B", { connectionId := "A-B", peerId := "B",
                                        status := "connecting", createdAt := 0 })]
                      isInitiator := false
                      mediaState := { audio := true, video := true, screen := false } })])]
    pendingOffers :=
      [("A-B", { roomId := "r", fromUserId := "A", toUserId := "B",
                 offer := "sdp1", timestamp := 0 }),
       ("A-C", { roomId := "r", fromUserId := "A", toUserId := "C",
                 offer := "sdp2", timestamp := 40000 })] }

theorem c8_witness :
    (sampleSweepState.pendingOffers.map Prod.fst).Nodup ∧
    ((sampleSweepState.cleanupPendingOffers 50000).1.pendingOffers =
        sampleSweepState.pendingOffers.filter
          (fun p => 50000 - p.2.timestamp ≤ 30000) ∧
      (sampleSweepState.cleanupPendingOffers 50000).1.connections =
        sampleSweepState.connections ∧
      (sampleSweepState.cleanupPendingOffers 50000).1.getStats.pendingOffers =
        (sampleSweepState.pendingOffers.filter
          (fun p => 50000 - p.2.timestamp ≤ 30000)).length) :=
  ⟨by decide, c8_sweep_exact sampleSweepState 50000 (by decide)⟩

end VC
